import Mathlib

/-!
Shallow embedding of the cost-management analytics engine
(provider clients, retry policy, cache manager, breakdown / trend /
period-comparison analytics) together with proofs about the embedded
definitions.

Conventions of the embedding:
* JavaScript numbers are modelled as exact rationals (`ℚ`); every claim
  settled here is an arithmetic identity, not a floating-point property.
* `Date` values are modelled as integers (milliseconds since the epoch).
* Optional / possibly-missing object fields are modelled with `Option`.
* Async functions returning a value or throwing are modelled with
  `Except`; a thrown JavaScript error is modelled by `JsError`
  (its `name` and `message` fields, which are the only ones the code
  inspects).
* JavaScript `Map` objects are modelled as association lists in
  insertion order, matching `Map`'s iteration-order guarantee.
* `Array.prototype.sort`, which is required to be stable, is modelled by
  the stable insertion sort `stableSort` below, parameterised by the
  comparator's "may come before" relation.
-/

/-- Model of a thrown JavaScript error: the `name` and `message`
fields, which are all that the embedded code inspects. -/
structure JsError where
  name : String
  message : String
deriving DecidableEq

/-- Usage metadata of one cost line item (`usage?: {quantity, unit}`). -/
structure CostUsage where
  quantity : ℚ
  unit : String
deriving DecidableEq

/-- Tag metadata of one cost line item (`metadata?.tags`); only the
`project` tag is read by the engine. -/
structure CostTags where
  project : Option String
deriving DecidableEq

/-- Dimension metadata of one cost line item (`metadata?: {region?, tags?}`). -/
structure CostDimMeta where
  region : Option String
  tags : Option CostTags
deriving DecidableEq

/-- One line item of a provider's cost breakdown.  The analytics code
accesses `service`, `amount`, `date` and `metadata` defensively
(`item.service || fallback`, `item.date?.`, `item.metadata?.`), so the
possibly-missing fields are modelled with `Option`. -/
structure CostBreakdown where
  service : Option String
  amount : ℚ
  usage : Option CostUsage
  date : Option ℤ
  metadata : Option CostDimMeta
deriving DecidableEq

/-- Provenance marker of a `UnifiedCostData` (`source: 'api'|'cache'|'manual'`). -/
inductive DataSource where
  | api
  | cache
  | manual
deriving DecidableEq

/-- The `costs` sub-object of `UnifiedCostData`. -/
structure CostAmounts where
  total : ℚ
  currency : String
  breakdown : List CostBreakdown
deriving DecidableEq

/-- The `metadata` sub-object of `UnifiedCostData`. -/
structure CostMeta where
  lastUpdated : ℤ
  source : DataSource
deriving DecidableEq

/-- The unified cost model every provider normalizes into. -/
structure UnifiedCostData where
  provider : String
  periodStart : ℤ
  periodEnd : ℤ
  costs : CostAmounts
  metadata : CostMeta
deriving DecidableEq

/-! ### Stable sorting

`Array.prototype.sort(cmp)` is stable; `stableSort bef` is the stable
sort that places `x` before `y` exactly when `bef x y` holds, keeping
the original order of tied elements.  For a JavaScript comparator `c`,
`bef x y` is `c x y ≤ 0`. -/

/-- Insert `x` into `l`, placing it before the first element `y` with
`bef x y`.  Used by `stableSort`. -/
def stableInsert (bef : α → α → Bool) (x : α) : List α → List α
  | [] => [x]
  | y :: ys => if bef x y then x :: y :: ys else y :: stableInsert bef x ys

/-- Stable insertion sort modelling JavaScript's stable `Array.sort`. -/
def stableSort (bef : α → α → Bool) : List α → List α
  | [] => []
  | x :: xs => stableInsert bef x (stableSort bef xs)

/-! ### Cache manager (`src/common/cache.ts`)

`CacheManager.buildKey` joins the provider id with the query parameters
sorted by key name.  Parameter records (`Record<string, any>` whose
values the key template renders with `${params[key]}`) are modelled as
association lists of rendered `String` values with distinct keys, in
property-insertion order (`Object.keys` order).  The backing
`MemoryCache` store is modelled as an association list from key strings
to values; the TTL argument only affects expiry timing, which no claim
mentions, and is dropped from the model. -/

/-- Lexicographic comparison of character lists by code point, the
order in which JavaScript's default `Array.sort()` compares key
strings.  Defined directly so that it evaluates inside the kernel. -/
def charListLe : List Char → List Char → Bool
  | [], _ => true
  | _ :: _, [] => false
  | a :: as, b :: bs =>
    if a.toNat < b.toNat then true
    else if b.toNat < a.toNat then false
    else charListLe as bs

/-- String comparison used to sort cache-key parameter names. -/
def strLe (a b : String) : Bool := charListLe a.data b.data

/-- Fixed key prefix of `CacheManager`. -/
def keyPrefix : String := "cost-mgmt"

/-- Property lookup `params[k]` on a parameter record. -/
def lookupParam (k : String) (params : List (String × String)) : String :=
  ((params.find? (fun p => p.1 == k)).map Prod.snd).getD ""

/-- Keys of a record in insertion order sorted lexicographically,
modelling `Object.keys(params).sort()`. -/
def sortedKeys (params : List (String × String)) : List String :=
  stableSort strLe (params.map Prod.fst)

/-- `CacheManager.buildKey`: provider id plus parameters sorted by key
name, joined as `key:value` pairs with `:`. -/
def buildKey (provider : String) (params : List (String × String)) : String :=
  let sortedParams :=
    String.intercalate ":" ((sortedKeys params).map (fun k => k ++ ":" ++ lookupParam k params))
  keyPrefix ++ ":" ++ provider ++ ":" ++ sortedParams

/-- Overwriting `set` on the backing store (`NodeCache.set`). -/
def cacheStoreSet (store : List (String × α)) (key : String) (v : α) : List (String × α) :=
  (key, v) :: store.filter (fun p => !(p.1 == key))

/-- Lookup `get` on the backing store (`NodeCache.get`). -/
def cacheStoreGet (store : List (String × α)) (key : String) : Option α :=
  (store.find? (fun p => p.1 == key)).map Prod.snd

/-- `CacheManager.setCostData`: store a value under the built key. -/
def setCostData (store : List (String × α)) (provider : String)
    (params : List (String × String)) (v : α) : List (String × α) :=
  cacheStoreSet store (buildKey provider params) v

/-- `CacheManager.getCostData`: read the value under the built key. -/
def getCostData (store : List (String × α)) (provider : String)
    (params : List (String × String)) : Option α :=
  cacheStoreGet store (buildKey provider params)

/-! ### Retry policy (`src/common/utils.ts`, `retry`)

The wrapped async operation is modelled by `fn : ℕ → Except ε α`, the
outcome of its k-th invocation (1-indexed).  `retryGo` mirrors the
`for (attempt = 1; attempt <= maxAttempts; attempt++)` loop: the
`remaining` fuel argument counts loop iterations still allowed
(initially `maxAttempts`), so the loop body runs exactly while
`attempt ≤ maxAttempts`.  The backoff `sleep` between attempts delays
execution but does not change control flow, so it is dropped.  `calls`
records how many times the operation was invoked.  `exhausted` models
the final `throw lastError || new Error('Retry failed')` line, which is
reachable only when `maxAttempts < 1` and no attempt ever ran. -/

/-- Outcome of a `retry` run: returned value, thrown error of the last
attempt, or the fallback throw of a zero-attempt run. -/
inductive RetryOutcome (ε α : Type) where
  | ok (value : α)
  | err (e : ε)
  | exhausted
deriving DecidableEq

/-- Result of running `retry`: its outcome plus the number of times the
wrapped operation was invoked. -/
structure RetryRun (ε α : Type) where
  outcome : RetryOutcome ε α
  calls : ℕ
deriving DecidableEq

/-- The retry loop body; see the section comment for the encoding. -/
def retryGo (fn : ℕ → Except ε α) (shouldRetry : ε → Bool) (maxAttempts attempt : ℕ) :
    ℕ → RetryRun ε α
  | 0 => ⟨.exhausted, attempt - 1⟩
  | remaining + 1 =>
    match fn attempt with
    | .ok a => ⟨.ok a, attempt⟩
    | .error e =>
      if attempt == maxAttempts || !shouldRetry e then ⟨.err e, attempt⟩
      else retryGo fn shouldRetry maxAttempts (attempt + 1) remaining

/-- The `retry` wrapper: run the loop from attempt 1. -/
def retryRun (fn : ℕ → Except ε α) (shouldRetry : ε → Bool) (maxAttempts : ℕ) : RetryRun ε α :=
  retryGo fn shouldRetry maxAttempts 1 maxAttempts

/-! ### Provider client `getCosts` flows

`AWSCostClient.getCosts` (`src/providers/aws/client.ts`) and the two
variants of `OpenAICostClient.getCosts` (`src/providers/openai/client.ts`)
are modelled as functions of three oracles: the cache read outcome, the
(retry-wrapped) upstream fetch-and-transform outcome, and the cache
write outcome.  Throwing is `Except.error` of the thrown `JsError`. -/

/-- Marking a cache hit: `{...cached, metadata: {...metadata, source: 'cache'}}`. -/
def withCacheSource (d : UnifiedCostData) : UnifiedCostData :=
  { d with metadata := { d.metadata with source := .cache } }

/-- An `AuthenticationError` as thrown by `src/common/errors.ts`:
`name` is the class name, `message` is prefixed with the provider. -/
def authenticationError (provider msg : String) : JsError :=
  ⟨"AuthenticationError", "[" ++ provider ++ "] " ++ msg⟩

/-- A `ProviderError` as thrown by `src/common/errors.ts`. -/
def providerError (provider msg : String) : JsError :=
  ⟨"ProviderError", "[" ++ provider ++ "] " ++ msg⟩

/-- A `CacheError` as thrown by `src/common/cache.ts`. -/
def cacheError (msg : String) : JsError :=
  ⟨"CacheError", msg⟩

/-- JavaScript `String.prototype.includes`, via `splitOn`: a substring
occurs exactly when splitting on it yields more than one part. -/
def strIncludes (s sub : String) : Bool := (s.splitOn sub).length > 1

/-- Error classification in the catch block of the OpenAI client. -/
def classifyOpenAIError (e : JsError) : JsError :=
  if strIncludes e.message "401" || strIncludes e.message "Unauthorized" then
    authenticationError "openai" "Invalid API key"
  else if strIncludes e.message "404" then
    providerError "openai" "Usage API not available. This may require a paid account."
  else
    providerError "openai" "Failed to fetch usage data"

/-- `AWSCostClient.getCosts`: the cache read is not guarded by any
`try`, so a thrown `CacheError` propagates; the cache write sits inside
the same `try` as the fetch, so its failure reaches the generic catch
block and is re-thrown as a `ProviderError`. -/
def awsGetCosts (cacheGet : Except JsError (Option UnifiedCostData))
    (fetchResult : Except JsError UnifiedCostData)
    (cacheSet : UnifiedCostData → Except JsError Unit) : Except JsError UnifiedCostData :=
  match cacheGet with
  | .error e => .error e
  | .ok (some cached) => .ok (withCacheSource cached)
  | .ok none =>
    let body : Except JsError UnifiedCostData :=
      match fetchResult with
      | .error e => .error e
      | .ok transformed =>
        match cacheSet transformed with
        | .error e => .error e
        | .ok _ => .ok transformed
    match body with
    | .ok v => .ok v
    | .error e =>
      if e.name == "UnrecognizedClientException" then
        .error (authenticationError "aws" "Invalid AWS credentials")
      else
        .error (providerError "aws" "Failed to fetch cost data")

/-- The `OpenAICostClient.getCosts` variant that wraps both cache
operations in their own `try`/`catch` (the `getCacheOrDefault` client):
a failing cache read is logged and treated as a miss, a failing cache
write is logged and the fetched data still returned. -/
def openaiGetCostsSafe (cacheGet : Except JsError (Option UnifiedCostData))
    (fetchResult : Except JsError UnifiedCostData)
    (cacheSet : UnifiedCostData → Except JsError Unit) : Except JsError UnifiedCostData :=
  let cached : Option UnifiedCostData :=
    match cacheGet with
    | .error _ => none
    | .ok r => r
  match cached with
  | some c => .ok (withCacheSource c)
  | none =>
    match fetchResult with
    | .error e => .error (classifyOpenAIError e)
    | .ok transformed =>
      match cacheSet transformed with
      | _ => .ok transformed

/-- The `OpenAICostClient.getCosts` variant without cache-specific
`try`/`catch` (the `getCache` client): structurally like the AWS
client, with the OpenAI error classification in the catch block. -/
def openaiGetCostsUnsafe (cacheGet : Except JsError (Option UnifiedCostData))
    (fetchResult : Except JsError UnifiedCostData)
    (cacheSet : UnifiedCostData → Except JsError Unit) : Except JsError UnifiedCostData :=
  match cacheGet with
  | .error e => .error e
  | .ok (some cached) => .ok (withCacheSource cached)
  | .ok none =>
    let body : Except JsError UnifiedCostData :=
      match fetchResult with
      | .error e => .error e
      | .ok transformed =>
        match cacheSet transformed with
        | .error e => .error e
        | .ok _ => .ok transformed
    match body with
    | .ok v => .ok v
    | .error e => .error (classifyOpenAIError e)

/-! ### Multi-provider aggregation (`getCostTool`, no `provider` argument)

The `for (const [providerName, provider] of providers)` loop is
modelled over the list of `(name, getCosts outcome)` pairs in map
iteration order. -/

/-- One `{provider, error}` record of the aggregation error side-channel. -/
structure AggregateErrorRecord where
  provider : String
  error : String
deriving DecidableEq

/-- The aggregate response body built by `getCostTool`. -/
structure AggregateResult where
  success : Bool
  total : ℚ
  currency : String
  providers : List UnifiedCostData
  errors : Option (List AggregateErrorRecord)
deriving DecidableEq

/-- The aggregation loop of `getCostTool`: push data on success, push a
`{provider, error.message}` record on failure, then assemble the
response; `errors` is `undefined` when empty. -/
def getCostAggregate (results : List (String × Except JsError UnifiedCostData)) :
    AggregateResult :=
  let collected := results.foldl
    (fun (acc : List UnifiedCostData × List AggregateErrorRecord) nr =>
      match nr.2 with
      | .ok d => (acc.1 ++ [d], acc.2)
      | .error e => (acc.1, acc.2 ++ [⟨nr.1, e.message⟩]))
    ([], [])
  { success := true
    total := (collected.1.map (fun d => d.costs.total)).sum
    currency := "USD"
    providers := collected.1
    errors := if collected.2.isEmpty then none else some collected.2 }

/-- The data pushed by the aggregation loop, as a `filterMap`. -/
def aggOks (results : List (String × Except JsError UnifiedCostData)) : List UnifiedCostData :=
  results.filterMap (fun nr =>
    match nr.2 with
    | .ok d => some d
    | .error _ => none)

/-- The error records pushed by the aggregation loop, as a `filterMap`. -/
def aggErrs (results : List (String × Except JsError UnifiedCostData)) :
    List AggregateErrorRecord :=
  results.filterMap (fun nr =>
    match nr.2 with
    | .ok _ => none
    | .error e => some ⟨nr.1, e.message⟩)

/-! ### Trend analyzer (`calculateTrends` in `getCostTrends`) -/

/-- A point of a trend series (`TrendData` in the source). -/
structure TrendData where
  date : ℤ
  cost : ℚ
  changeFromPrevious : ℚ
  changePercentage : ℚ
deriving DecidableEq

/-- Sort key of the pre-sort in `calculateTrends`:
`(a.date?.getTime() ?? 0)`. -/
def trendDateKey (it : CostBreakdown) : ℤ := it.date.getD 0

/-- The loop of `calculateTrends` over the date-sorted breakdown:
undated items are skipped (`continue`) and leave `previousCost`
untouched; the first emitted point uses the initial `previousCost = 0`. -/
def trendPoints : List CostBreakdown → ℚ → List TrendData
  | [], _ => []
  | it :: rest, previousCost =>
    match it.date with
    | none => trendPoints rest previousCost
    | some d =>
      let changeFromPrevious := it.amount - previousCost
      let changePercentage :=
        if previousCost > 0 then changeFromPrevious / previousCost * 100 else 0
      ⟨d, it.amount, changeFromPrevious, changePercentage⟩ :: trendPoints rest it.amount

/-- `calculateTrends`: stable-sort the breakdown by date (missing date
counts as epoch 0), then walk it building the delta series. -/
def calculateTrends (costData : UnifiedCostData) : List TrendData :=
  trendPoints
    (stableSort (fun a b => decide (trendDateKey a ≤ trendDateKey b)) costData.costs.breakdown)
    0

/-! ### Breakdown engine (`src/tools/getCostBreakdown.ts`)

`calculateBreakdown` groups the line items by the first dimension into
a `Map` (insertion order, modelled by the association list built by
`addToGroups`), converts it to `BreakdownItem`s with percentages, sorts
descending by value (stable), applies the threshold filter, slices to
`topN`, and, when more dimensions remain, attaches recursive
sub-breakdowns (recursive `topN` fixed at 5, no threshold) computed
from the items recovered by `filterCostData`. -/

/-- The four analyzable dimensions of the tool schema. -/
inductive Dimension where
  | service
  | region
  | date
  | tag
deriving DecidableEq

/-- Grouping key of one line item for a dimension — the `switch` at the
top of `calculateBreakdown`, with its fixed fallback labels for missing
values.  The `none` dimension models `dimensions[0]` being `undefined`
(empty dimension list), which hits the `default` branch.  The ISO date
part of a present date is rendered by `toString`. -/
def dimKey : Option Dimension → CostBreakdown → String
  | some .service, it => it.service.getD "Unknown Service"
  | some .region, it => ((it.metadata.bind CostDimMeta.region).getD "Global")
  | some .date, it =>
    match it.date with
    | some d => toString d
    | none => "Unknown Date"
  | some .tag, it =>
    (((it.metadata.bind CostDimMeta.tags).bind CostTags.project).getD "Untagged")
  | none, _ => "Unknown"

/-- Item predicate of `filterCostData`: note that for the `date`
dimension an item with no date matches nothing (the code compares
`item.date?.toISOString().split('T')[0]` — `undefined` — against the
group key, without the `'Unknown Date'` fallback used when grouping). -/
def filterMatch : Dimension → String → CostBreakdown → Bool
  | .service, v, it => (it.service.getD "Unknown Service") == v
  | .region, v, it => ((it.metadata.bind CostDimMeta.region).getD "Global") == v
  | .date, v, it =>
    match it.date with
    | some d => toString d == v
    | none => false
  | .tag, v, it =>
    ((((it.metadata.bind CostDimMeta.tags).bind CostTags.project).getD "Untagged") == v)

/-- One `Map.set(key, (map.get(key) || 0) + amount)` step on the
association-list model of the grouping map. -/
def addToGroups : List (String × ℚ) → String → ℚ → List (String × ℚ)
  | [], key, amt => [(key, amt)]
  | (k, v) :: rest, key, amt =>
    if k == key then (k, v + amt) :: rest else (k, v) :: addToGroups rest key amt

/-- The grouping loop of `calculateBreakdown`: amounts summed per group
key, keys in first-encounter order. -/
def groupAmounts (dim : Option Dimension) (items : List CostBreakdown) : List (String × ℚ) :=
  items.foldl (fun g it => addToGroups g (dimKey dim it) it.amount) []

/-- Analytics output node (`BreakdownItem` in the source): a bounded
tree of `{key, value, percentage, subBreakdown?}`. -/
inductive BreakdownItem where
  | mk (key : String) (value : ℚ) (percentage : ℚ)
       (subBreakdown : Option (List BreakdownItem))

/-- Group key of a breakdown node. -/
@[simp] def BreakdownItem.key : BreakdownItem → String
  | .mk k _ _ _ => k

/-- Summed amount of a breakdown node. -/
@[simp] def BreakdownItem.value : BreakdownItem → ℚ
  | .mk _ v _ _ => v

/-- Percentage of the level total of a breakdown node. -/
@[simp] def BreakdownItem.percentage : BreakdownItem → ℚ
  | .mk _ _ p _ => p

/-- Attached sub-breakdown of a breakdown node, when any. -/
@[simp] def BreakdownItem.subBreakdown : BreakdownItem → Option (List BreakdownItem)
  | .mk _ _ _ s => s

/-- Setting `item.subBreakdown` on a breakdown node. -/
def BreakdownItem.withSub (it : BreakdownItem) (s : List BreakdownItem) : BreakdownItem :=
  .mk it.key it.value it.percentage (some s)

/-- `filterCostData`'s result shape: the filtered items with the level
total recomputed as their sum. -/
def restrictData (cd : UnifiedCostData) (filtered : List CostBreakdown) : UnifiedCostData :=
  { cd with
    costs := { cd.costs with
      total := (filtered.map CostBreakdown.amount).sum
      breakdown := filtered } }

/-- One level of `calculateBreakdown` before sub-breakdowns: group, map
to items with `percentage = value/total*100`, stable-sort descending by
value (`(a, b) => b.value - a.value`), threshold-filter
(`percentage >= threshold`, only when a threshold was given), slice to
`topN`. -/
def breakdownBase (dim : Option Dimension) (cd : UnifiedCostData) (topN : ℕ)
    (threshold : Option ℚ) : List BreakdownItem :=
  let items := stableSort (fun (a b : BreakdownItem) => decide (b.value ≤ a.value))
    ((groupAmounts dim cd.costs.breakdown).map
      (fun kv => BreakdownItem.mk kv.1 kv.2 (kv.2 / cd.costs.total * 100) none))
  let items :=
    match threshold with
    | some t => items.filter (fun (it : BreakdownItem) => decide (t ≤ it.percentage))
    | none => items
  items.take topN

/-- The sub-breakdown attachment loop: for each retained item, filter
the level's line items by the item's key; when the filtered set is
nonempty, attach `sub` of the restricted data, otherwise leave the item
without a sub-breakdown. -/
def attachSubs (d : Dimension) (cd : UnifiedCostData)
    (sub : UnifiedCostData → List BreakdownItem) : List BreakdownItem → List BreakdownItem
  | [] => []
  | it :: its =>
    (let filtered := cd.costs.breakdown.filter (filterMatch d it.key)
     if filtered.isEmpty then it
     else it.withSub (sub (restrictData cd filtered))) :: attachSubs d cd sub its

/-- `calculateBreakdown`, recursing on the dimension list; the
recursive call fixes `topN` at 5 and passes no threshold. -/
def calcBreakdownDims : List Dimension → UnifiedCostData → ℕ → Option ℚ → List BreakdownItem
  | [] => fun cd topN threshold => breakdownBase none cd topN threshold
  | d :: rest => fun cd topN threshold =>
    let items := breakdownBase (some d) cd topN threshold
    if rest.isEmpty then items
    else attachSubs d cd (fun cd' => calcBreakdownDims rest cd' 5 none) items

/-- `calculateBreakdown` with the source's argument order. -/
def calculateBreakdown (cd : UnifiedCostData) (dims : List Dimension) (topN : ℕ)
    (threshold : Option ℚ) : List BreakdownItem :=
  calcBreakdownDims dims cd topN threshold

/-- Result shape of `analyzeBreakdown` (the JSON-presentation fields
and the generated insight strings are not modelled; `coveragePercentage`
is `sum(item.value) / total * 100` over the returned top-level items). -/
structure BreakdownAnalysis where
  provider : String
  totalCost : ℚ
  currency : String
  breakdown : List BreakdownItem
  itemsIncluded : ℕ
  coveragePercentage : ℚ

/-- `analyzeBreakdown` on already-fetched cost data. -/
def analyzeBreakdown (name : String) (cd : UnifiedCostData) (dims : List Dimension)
    (topN : ℕ) (threshold : Option ℚ) : BreakdownAnalysis :=
  let breakdown := calculateBreakdown cd dims topN threshold
  { provider := name
    totalCost := cd.costs.total
    currency := cd.costs.currency
    breakdown := breakdown
    itemsIncluded := breakdown.length
    coveragePercentage := ((breakdown.map BreakdownItem.value).sum / cd.costs.total) * 100 }

/-! ### Specification-side breakdown definitions

For the refinement claim about the breakdown algorithm, the claimed
algorithm is written out a second time, following the specification's
wording (grouping described as "distinct keys in encounter order, each
with the sum of its items' amounts"; the sub-breakdown of a retained
group built from that group's items).  `claimBreakdown` is the claim as
stated; `amendedBreakdown` differs from it only where the source
forces it to: the sub-breakdown is built from the items the dimension
filter recovers for the group key, and omitted when that set is empty. -/

/-- Distinct elements of a list in first-encounter order. -/
def encounterKeys : List String → List String
  | [] => []
  | k :: ks => k :: (encounterKeys ks).filter (fun k' => !(k' == k))

/-- Total amount of the items of a group key. -/
def keySum (dim : Option Dimension) (k : String) (items : List CostBreakdown) : ℚ :=
  ((items.filter (fun it => dimKey dim it == k)).map CostBreakdown.amount).sum

/-- Grouping as the specification words it: one entry per distinct key
in encounter order, holding the sum of the group's amounts. -/
def specGroups (dim : Option Dimension) (items : List CostBreakdown) : List (String × ℚ) :=
  (encounterKeys (items.map (dimKey dim))).map (fun k => (k, keySum dim k items))

/-- One level of the claimed algorithm: `specGroups`, percentages,
stable descending sort, threshold filter, then the `topN` slice. -/
def claimBreakdownBase (dim : Option Dimension) (cd : UnifiedCostData) (topN : ℕ)
    (threshold : Option ℚ) : List BreakdownItem :=
  let items := stableSort (fun (a b : BreakdownItem) => decide (b.value ≤ a.value))
    ((specGroups dim cd.costs.breakdown).map
      (fun kv => BreakdownItem.mk kv.1 kv.2 (kv.2 / cd.costs.total * 100) none))
  let items :=
    match threshold with
    | some t => items.filter (fun (it : BreakdownItem) => decide (t ≤ it.percentage))
    | none => items
  items.take topN

/-- The claimed recursive algorithm exactly as the claim states it:
when further dimensions remain, every retained group's sub-breakdown is
built from that group's items (the items whose grouping key equals the
group key), with the recursive `topN` fixed at 5. -/
def claimBreakdown : List Dimension → UnifiedCostData → ℕ → Option ℚ → List BreakdownItem
  | [] => fun cd topN threshold => claimBreakdownBase none cd topN threshold
  | d :: rest => fun cd topN threshold =>
    let items := claimBreakdownBase (some d) cd topN threshold
    if rest.isEmpty then items
    else items.map (fun it =>
      let groupItems := cd.costs.breakdown.filter (fun x => dimKey (some d) x == it.key)
      it.withSub (claimBreakdown rest (restrictData cd groupItems) 5 none))

/-- The claimed algorithm amended to match the source's sub-breakdown
construction: the group's items are recovered through the dimension
filter (which, for the `date` dimension, never matches undated items),
and the sub-breakdown is omitted when nothing is recovered. -/
def amendedBreakdown : List Dimension → UnifiedCostData → ℕ → Option ℚ → List BreakdownItem
  | [] => fun cd topN threshold => claimBreakdownBase none cd topN threshold
  | d :: rest => fun cd topN threshold =>
    let items := claimBreakdownBase (some d) cd topN threshold
    if rest.isEmpty then items
    else items.map (fun it =>
      let filtered := cd.costs.breakdown.filter (filterMatch d it.key)
      if filtered.isEmpty then it
      else it.withSub (amendedBreakdown rest (restrictData cd filtered) 5 none))

/-! ### Period comparator (`getCostPeriods`)

`comparePeriods` is modelled as a pure function of the two period date
ranges and the two fetched `UnifiedCostData` instances (the source
fetches them through `provider.getCosts` before computing).  The
generated insight strings are presentation-only and not modelled. -/

/-- Per-period summary of a comparison. -/
structure PeriodStats where
  startDate : ℤ
  endDate : ℤ
  cost : ℚ
  days : ℤ
  dailyAverage : ℚ
deriving DecidableEq

/-- Direction classification of the overall change. -/
inductive TrendDirection where
  | increase
  | decrease
  | stable
deriving DecidableEq

/-- The `comparison` sub-object of a period comparison. -/
structure ComparisonMetrics where
  absoluteDifference : ℚ
  percentageChange : ℚ
  dailyAverageDifference : ℚ
  trend : TrendDirection
deriving DecidableEq

/-- One per-service comparison record. -/
structure ServiceComparison where
  service : String
  period1Cost : ℚ
  period2Cost : ℚ
  difference : ℚ
  percentageChange : ℚ
deriving DecidableEq

/-- The full result of `comparePeriods` (insight strings omitted). -/
structure PeriodComparison where
  period1 : PeriodStats
  period2 : PeriodStats
  comparison : ComparisonMetrics
  breakdown : Option (List ServiceComparison)
deriving DecidableEq

/-- Length of a period in days:
`Math.ceil((end - start) / (1000*60*60*24))`. -/
def periodDays (s e : ℤ) : ℤ := ⌈((e - s : ℤ) : ℚ) / 86400000⌉

/-- One `services.set(service, existing)` step of
`calculateBreakdownComparison`; `isP2` selects which period's sum the
amount is added to. -/
def addServiceAmount (isP2 : Bool) :
    List (String × ℚ × ℚ) → String → ℚ → List (String × ℚ × ℚ)
  | [], svc, amt => [(svc, if isP2 then ((0 : ℚ), amt) else (amt, (0 : ℚ)))]
  | (k, p) :: rest, svc, amt =>
    if k == svc then
      (k, if isP2 then (p.1, p.2 + amt) else (p.1 + amt, p.2)) :: rest
    else
      (k, p) :: addServiceAmount isP2 rest svc amt

/-- The two aggregation loops of `calculateBreakdownComparison`:
period-1 amounts then period-2 amounts, keyed by
`item.service || 'Unknown'`. -/
def aggregateServices (costs1 costs2 : UnifiedCostData) : List (String × ℚ × ℚ) :=
  let m1 := costs1.costs.breakdown.foldl
    (fun m it => addServiceAmount false m (it.service.getD "Unknown") it.amount) []
  costs2.costs.breakdown.foldl
    (fun m it => addServiceAmount true m (it.service.getD "Unknown") it.amount) m1

/-- Mapping one aggregated service entry to its comparison record,
including the zero-baseline convention (`period1 = 0` and
`period2 > 0` gives `percentageChange = 100`). -/
def serviceComparison (kv : String × ℚ × ℚ) : ServiceComparison :=
  { service := kv.1
    period1Cost := kv.2.1
    period2Cost := kv.2.2
    difference := kv.2.2 - kv.2.1
    percentageChange :=
      if kv.2.1 > 0 then (kv.2.2 - kv.2.1) / kv.2.1 * 100
      else if kv.2.2 > 0 then 100
      else 0 }

/-- `calculateBreakdownComparison`: aggregate, map to records, stable
sort descending by `|difference|` (`(a, b) => |b.d| - |a.d|`). -/
def calculateBreakdownComparison (costs1 costs2 : UnifiedCostData) :
    List ServiceComparison :=
  stableSort (fun (a b : ServiceComparison) => decide (|b.difference| ≤ |a.difference|))
    ((aggregateServices costs1 costs2).map serviceComparison)

/-- `comparePeriods` on already-fetched period data. -/
def comparePeriods (p1s p1e p2s p2e : ℤ) (costs1 costs2 : UnifiedCostData)
    (includeBreakdown : Bool) : PeriodComparison :=
  let days1 := periodDays p1s p1e
  let days2 := periodDays p2s p2e
  let dailyAvg1 := costs1.costs.total / (days1 : ℚ)
  let dailyAvg2 := costs2.costs.total / (days2 : ℚ)
  let absoluteDiff := costs2.costs.total - costs1.costs.total
  let percentageChange :=
    if costs1.costs.total > 0 then
      (costs2.costs.total - costs1.costs.total) / costs1.costs.total * 100
    else 0
  let trend : TrendDirection :=
    if percentageChange > 5 then .increase
    else if percentageChange < -5 then .decrease
    else .stable
  { period1 := ⟨p1s, p1e, costs1.costs.total, days1, dailyAvg1⟩
    period2 := ⟨p2s, p2e, costs2.costs.total, days2, dailyAvg2⟩
    comparison := ⟨absoluteDiff, percentageChange, dailyAvg2 - dailyAvg1, trend⟩
    breakdown :=
      if includeBreakdown then some (calculateBreakdownComparison costs1 costs2)
      else none }

/-! ### Tool-layer validation (`getCost`, `getCostBreakdown`, `getCostPeriods`)

Each tool is modelled on already-parsed dates, with the configured
providers given as a list of `(name, getCosts outcome)` pairs in map
iteration order — the oracle for what each provider would produce for
the requested range.  A tool failing by throwing is `Except.error`. -/

/-- Error surfaced by a tool call: a thrown `ValidationError` or a
propagated provider error. -/
inductive ToolError where
  | validation (message : String)
  | provider (e : JsError)
deriving DecidableEq

/-- Result of `getCostTool`: single-provider data or the aggregate. -/
inductive GetCostOut where
  | single (d : UnifiedCostData)
  | aggregate (r : AggregateResult)
deriving DecidableEq

/-- `providers.get(name)` on the configured-provider map. -/
def lookupProvider (providers : List (String × α)) (name : String) : Option α :=
  (providers.find? (fun p => p.1 == name)).map Prod.snd

/-- `getCostTool`: date validation (strict `>`), then either the
single-provider path (unknown id throws a `ValidationError`) or the
aggregation loop over all configured providers. -/
def getCostToolRun (providers : List (String × Except JsError UnifiedCostData))
    (providerArg : Option String) (startDate endDate : ℤ) : Except ToolError GetCostOut :=
  if startDate > endDate then
    .error (.validation "Start date must be before end date")
  else
    match providerArg with
    | some p =>
      match lookupProvider providers p with
      | none => .error (.validation ("Provider " ++ p ++ " not configured"))
      | some (.error e) => .error (.provider e)
      | some (.ok d) => .ok (.single d)
    | none => .ok (.aggregate (getCostAggregate providers))

/-- `getCostBreakdownTool`: date validation (`>=`), then the single- or
all-provider analysis (the all-provider loop drops failing providers). -/
def getCostBreakdownToolRun (providers : List (String × Except JsError UnifiedCostData))
    (providerArg : Option String) (startDate endDate : ℤ) (dims : List Dimension)
    (topN : ℕ) (threshold : Option ℚ) : Except ToolError (List BreakdownAnalysis) :=
  if startDate ≥ endDate then
    .error (.validation "Start date must be before end date")
  else
    match providerArg with
    | some p =>
      match lookupProvider providers p with
      | none => .error (.validation ("Provider " ++ p ++ " not configured"))
      | some (.error e) => .error (.provider e)
      | some (.ok d) => .ok [analyzeBreakdown p d dims topN threshold]
    | none =>
      .ok (providers.filterMap (fun pr =>
        match pr.2 with
        | .ok d => some (analyzeBreakdown pr.1 d dims topN threshold)
        | .error _ => none))

/-- `getCostPeriodsTool`: per-period date validation (`>=` on both
periods), then the single- or all-provider comparison; the oracle
returns both periods' data (the source fetches them with
`Promise.all`) or the first error. -/
def getCostPeriodsToolRun
    (providers : List (String × Except JsError (UnifiedCostData × UnifiedCostData)))
    (providerArg : Option String) (p1s p1e p2s p2e : ℤ) (includeBreakdown : Bool) :
    Except ToolError (List (String × PeriodComparison)) :=
  if p1s ≥ p1e || p2s ≥ p2e then
    .error (.validation "Start date must be before end date for each period")
  else
    match providerArg with
    | some p =>
      match lookupProvider providers p with
      | none => .error (.validation ("Provider " ++ p ++ " not configured"))
      | some (.error e) => .error (.provider e)
      | some (.ok (c1, c2)) =>
        .ok [(p, comparePeriods p1s p1e p2s p2e c1 c2 includeBreakdown)]
    | none =>
      .ok (providers.filterMap (fun pr =>
        match pr.2 with
        | .ok (c1, c2) => some (pr.1, comparePeriods p1s p1e p2s p2e c1 c2 includeBreakdown)
        | .error _ => none))

/-! ### Concrete sample data for counterexamples and witnesses -/

/-- A small line item constructor for samples. -/
def mkItem (svc : Option String) (amt : ℚ) (d : Option ℤ) : CostBreakdown :=
  { service := svc, amount := amt, usage := none, date := d, metadata := none }

/-- A simple successfully-fetched cost data sample. -/
def sampleCost : UnifiedCostData :=
  { provider := "aws"
    periodStart := 0
    periodEnd := 86400000
    costs := { total := 42, currency := "USD", breakdown := [mkItem (some "AmazonEC2") 42 none] }
    metadata := { lastUpdated := 0, source := .api } }

/-- Cost data whose breakdown is a single dated point of cost 5. -/
def singlePointData : UnifiedCostData :=
  { provider := "aws"
    periodStart := 0
    periodEnd := 86400000
    costs := { total := 5, currency := "USD", breakdown := [mkItem (some "AWS Lambda") 5 (some 0)] }
    metadata := { lastUpdated := 0, source := .api } }

/-- Cost data with one undated line item, used against the
date-dimension sub-breakdown. -/
def undatedItemData : UnifiedCostData :=
  { provider := "aws"
    periodStart := 0
    periodEnd := 86400000
    costs := { total := 5, currency := "USD", breakdown := [mkItem (some "Amazon S3") 5 none] }
    metadata := { lastUpdated := 0, source := .api } }

/-- The specification's scenario 1 data: items A/B/C of 60/30/10c
with total 100. -/
def threeItemData : UnifiedCostData :=
  { provider := "aws"
    periodStart := 0
    periodEnd := 86400000
    costs := { total := 100, currency := "USD"
               breakdown := [mkItem (some "A") 60 none, mkItem (some "B") 30 none,
                             mkItem (some "C") 10 none] }
    metadata := { lastUpdated := 0, source := .api } }

/-- Period-1 sample for the comparison witness: only service S. -/
def periodOneData : UnifiedCostData :=
  { provider := "aws"
    periodStart := 0
    periodEnd := 86400000
    costs := { total := 10, currency := "USD", breakdown := [mkItem (some "S") 10 none] }
    metadata := { lastUpdated := 0, source := .api } }

/-- Period-2 sample for the comparison witness: service S grown plus a
new service N. -/
def periodTwoData : UnifiedCostData :=
  { provider := "aws"
    periodStart := 86400000
    periodEnd := 172800000
    costs := { total := 19, currency := "USD"
               breakdown := [mkItem (some "S") 12 none, mkItem (some "N") 7 none] }
    metadata := { lastUpdated := 0, source := .api } }

/-- A sample cache failure. -/
def sampleCacheError : JsError := cacheError "Failed to get cache key: cost-mgmt:aws:k"

/-- Witness operation for the retry success case: fails on the first
two attempts, then succeeds. -/
def retryFnSucceedsThird : ℕ → Except ℕ ℕ := fun i => if 3 ≤ i then .ok 9 else .error i

/-- Witness operation that fails on every attempt with the attempt
index as error. -/
def retryFnAlwaysFails : ℕ → Except ℕ ℕ := fun i => .error i

/-- Witness retry predicate accepting only error code 1. -/
def retryOnlyCodeOne : ℕ → Bool := fun e => e == 1

/-- Whether the first item of a breakdown carries a sub-breakdown. -/
def headHasSub (l : List BreakdownItem) : Bool :=
  match l with
  | [] => false
  | it :: _ => it.subBreakdown.isSome

/-! ## Lemmas and theorems -/

section StableSortLemmas

variable {α : Type _}

theorem stableInsert_perm (bef : α → α → Bool) (x : α) (l : List α) :
    List.Perm (stableInsert bef x l) (x :: l) := by
  induction l with
  | nil => simp [stableInsert]
  | cons y ys ih =>
    by_cases h : bef x y = true
    · simp [stableInsert, h]
    · simp only [stableInsert, if_neg h]
      exact (ih.cons y).trans (List.Perm.swap x y ys)

theorem stableSort_perm (bef : α → α → Bool) (l : List α) : List.Perm (stableSort bef l) l := by
  induction l with
  | nil => simp [stableSort]
  | cons x xs ih =>
    exact (stableInsert_perm bef x (stableSort bef xs)).trans (ih.cons x)

theorem mem_stableSort (bef : α → α → Bool) (l : List α) (a : α) :
    a ∈ stableSort bef l ↔ a ∈ l :=
  (stableSort_perm bef l).mem_iff

theorem stableInsert_sorted (bef : α → α → Bool)
    (htot : ∀ a b, bef a b = true ∨ bef b a = true)
    (htrans : ∀ a b c, bef a b = true → bef b c = true → bef a c = true)
    (x : α) (l : List α) (hl : l.Pairwise (fun a b => bef a b = true)) :
    (stableInsert bef x l).Pairwise (fun a b => bef a b = true) := by
  induction l with
  | nil => simp [stableInsert]
  | cons y ys ih =>
    rcases List.pairwise_cons.mp hl with ⟨hy, hys⟩
    by_cases h : bef x y = true
    · simp only [stableInsert, if_pos h]
      refine List.pairwise_cons.mpr ⟨?_, hl⟩
      intro z hz
      rcases List.mem_cons.mp hz with rfl | hz'
      · exact h
      · exact htrans x y z h (hy z hz')
    · have hyx : bef y x = true := (htot x y).resolve_left h
      simp only [stableInsert, if_neg h]
      refine List.pairwise_cons.mpr ⟨?_, ih hys⟩
      intro z hz
      have hz' : z = x ∨ z ∈ ys := by
        simpa using (stableInsert_perm bef x ys).mem_iff.mp hz
      rcases hz' with rfl | hz''
      · exact hyx
      · exact hy z hz''

theorem stableSort_sorted (bef : α → α → Bool)
    (htot : ∀ a b, bef a b = true ∨ bef b a = true)
    (htrans : ∀ a b c, bef a b = true → bef b c = true → bef a c = true)
    (l : List α) : (stableSort bef l).Pairwise (fun a b => bef a b = true) := by
  induction l with
  | nil => simp [stableSort]
  | cons x xs ih => exact stableInsert_sorted bef htot htrans x _ ih

end StableSortLemmas

section StringOrderLemmas

theorem char_eq_of_toNat_eq {a b : Char} (h : a.toNat = b.toNat) : a = b :=
  Char.eq_of_val_eq (UInt32.ext h)

theorem charListLe_total : ∀ as bs, charListLe as bs = true ∨ charListLe bs as = true := by
  intro as
  induction as with
  | nil => intro bs; left; cases bs <;> simp [charListLe]
  | cons a as ih =>
    intro bs
    cases bs with
    | nil => right; simp [charListLe]
    | cons b bs =>
      rcases Nat.lt_trichotomy a.toNat b.toNat with h | h | h
      · left; simp [charListLe, h]
      · have h' : ¬ a.toNat < b.toNat := by omega
        have h'' : ¬ b.toNat < a.toNat := by omega
        rcases ih bs with hab | hba
        · left; simp [charListLe, h', h'', hab]
        · right; simp [charListLe, h', h'', hba]
      · right; simp [charListLe, h]

theorem charListLe_trans :
    ∀ as bs cs, charListLe as bs = true → charListLe bs cs = true →
      charListLe as cs = true := by
  intro as
  induction as with
  | nil => intro bs cs _ _; simp [charListLe]
  | cons a as ih =>
    intro bs cs h₁ h₂
    cases bs with
    | nil => simp [charListLe] at h₁
    | cons b bs =>
      cases cs with
      | nil => simp [charListLe] at h₂
      | cons c cs =>
        simp only [charListLe] at h₁ h₂ ⊢
        rcases Nat.lt_trichotomy a.toNat b.toNat with hab | hab | hab
        · rcases Nat.lt_trichotomy b.toNat c.toNat with hbc | hbc | hbc
          · have : a.toNat < c.toNat := Nat.lt_trans hab hbc
            simp [this]
          · have : a.toNat < c.toNat := hbc ▸ hab
            simp [this]
          · exfalso
            have h₂' : ¬ b.toNat < c.toNat := by omega
            simp [h₂', hbc] at h₂
        · rcases Nat.lt_trichotomy b.toNat c.toNat with hbc | hbc | hbc
          · have : a.toNat < c.toNat := hab ▸ hbc
            simp [this]
          · have hac : a.toNat = c.toNat := hab.trans hbc
            have h1' : ¬ a.toNat < c.toNat := by omega
            have h2' : ¬ c.toNat < a.toNat := by omega
            have hab1 : ¬ a.toNat < b.toNat := by omega
            have hab2 : ¬ b.toNat < a.toNat := by omega
            have hbc1 : ¬ b.toNat < c.toNat := by omega
            have hbc2 : ¬ c.toNat < b.toNat := by omega
            simp only [if_neg hab1, if_neg hab2] at h₁
            simp only [if_neg hbc1, if_neg hbc2] at h₂
            simp only [if_neg h1', if_neg h2']
            exact ih bs cs h₁ h₂
          · exfalso
            have h₂' : ¬ b.toNat < c.toNat := by omega
            simp [h₂', hbc] at h₂
        · exfalso
          have h₁' : ¬ a.toNat < b.toNat := by omega
          simp [h₁', hab] at h₁

theorem charListLe_antisymm :
    ∀ as bs, charListLe as bs = true → charListLe bs as = true → as = bs := by
  intro as
  induction as with
  | nil => intro bs _ h₂; cases bs with
    | nil => rfl
    | cons b bs => simp [charListLe] at h₂
  | cons a as ih =>
    intro bs h₁ h₂
    cases bs with
    | nil => simp [charListLe] at h₁
    | cons b bs =>
      simp only [charListLe] at h₁ h₂
      rcases Nat.lt_trichotomy a.toNat b.toNat with hab | hab | hab
      · exfalso
        have : ¬ b.toNat < a.toNat := by omega
        simp [this, hab] at h₂
      · have h1' : ¬ a.toNat < b.toNat := by omega
        have h2' : ¬ b.toNat < a.toNat := by omega
        simp only [if_neg h1', if_neg h2'] at h₁ h₂
        have := ih bs h₁ h₂
        rw [char_eq_of_toNat_eq hab, this]
      · exfalso
        have : ¬ a.toNat < b.toNat := by omega
        simp [this, hab] at h₁

theorem strLe_total (a b : String) : strLe a b = true ∨ strLe b a = true :=
  charListLe_total a.data b.data

theorem strLe_trans (a b c : String) (h₁ : strLe a b = true) (h₂ : strLe b c = true) :
    strLe a c = true :=
  charListLe_trans a.data b.data c.data h₁ h₂

theorem strLe_antisymm (a b : String) (h₁ : strLe a b = true) (h₂ : strLe b a = true) :
    a = b := by
  cases a; cases b
  exact congrArg String.mk (charListLe_antisymm _ _ h₁ h₂)

end StringOrderLemmas

section CacheKeyLemmas

theorem lookupParam_eq_of_mem :
    ∀ (l : List (String × String)) (k v : String), (k, v) ∈ l → (l.map Prod.fst).Nodup →
      lookupParam k l = v := by
  intro l
  induction l with
  | nil => intro k v h _; simp at h
  | cons p rest ih =>
    intro k v hmem hnd
    rw [List.map_cons, List.nodup_cons] at hnd
    rcases List.mem_cons.mp hmem with heq | hmem'
    · cases heq.symm
      simp [lookupParam]
    · by_cases hk : p.1 = k
      · exfalso
        apply hnd.1
        rw [hk]
        exact List.mem_map_of_mem Prod.fst hmem'
      · have hstep : lookupParam k (p :: rest) = lookupParam k rest := by
          simp only [lookupParam, List.find?_cons]
          have : (p.1 == k) = false := by simpa using hk
          simp [this]
        rw [hstep]
        exact ih k v hmem' hnd.2

theorem lookupParam_of_not_mem :
    ∀ (l : List (String × String)) (k : String), k ∉ l.map Prod.fst →
      lookupParam k l = "" := by
  intro l
  induction l with
  | nil => intro k _; simp [lookupParam]
  | cons p rest ih =>
    intro k hk
    simp only [List.map_cons, List.mem_cons] at hk
    push_neg at hk
    have h1 : (p.1 == k) = false := by simpa using fun h => hk.1 h.symm
    simp only [lookupParam, List.find?_cons, h1]
    exact ih k hk.2

theorem lookupParam_eq_of_perm (params1 params2 : List (String × String))
    (hp : List.Perm params1 params2) (hnd : (params1.map Prod.fst).Nodup) (k : String) :
    lookupParam k params1 = lookupParam k params2 := by
  by_cases hk : ∃ v, (k, v) ∈ params1
  · obtain ⟨v, hv⟩ := hk
    have hnd2 : (params2.map Prod.fst).Nodup := (hp.map Prod.fst).nodup_iff.mp hnd
    rw [lookupParam_eq_of_mem _ _ _ hv hnd,
      lookupParam_eq_of_mem _ _ _ (hp.mem_iff.mp hv) hnd2]
  · push_neg at hk
    have h1 : k ∉ params1.map Prod.fst := by
      intro hmem
      obtain ⟨q, hm, he⟩ := List.mem_map.mp hmem
      exact hk q.2 (by rw [show (k, q.2) = q from Prod.ext he.symm rfl]; exact hm)
    have h2 : k ∉ params2.map Prod.fst := fun h => h1 ((hp.map Prod.fst).mem_iff.mpr h)
    rw [lookupParam_of_not_mem _ _ h1, lookupParam_of_not_mem _ _ h2]

theorem sortedKeys_eq_of_perm (params1 params2 : List (String × String))
    (hp : List.Perm params1 params2) : sortedKeys params1 = sortedKeys params2 := by
  haveI : IsAntisymm String (fun a b => strLe a b = true) := ⟨strLe_antisymm⟩
  exact List.eq_of_perm_of_sorted
    ((stableSort_perm strLe _).trans ((hp.map Prod.fst).trans (stableSort_perm strLe _).symm))
    (stableSort_sorted strLe strLe_total strLe_trans _)
    (stableSort_sorted strLe strLe_total strLe_trans _)

theorem buildKey_eq_of_perm (provider : String) (params1 params2 : List (String × String))
    (hp : List.Perm params1 params2) (hnd : (params1.map Prod.fst).Nodup) :
    buildKey provider params1 = buildKey provider params2 := by
  have hfun : (fun k => k ++ ":" ++ lookupParam k params1)
      = (fun k => k ++ ":" ++ lookupParam k params2) :=
    funext fun k => by rw [lookupParam_eq_of_perm _ _ hp hnd k]
  unfold buildKey
  rw [sortedKeys_eq_of_perm _ _ hp, hfun]

end CacheKeyLemmas

/-- Claim C9: cache key construction is commutative in parameter
order — for the same provider and two parameter records holding exactly
the same key/value pairs in any insertion order, `buildKey` produces the
identical key string, and consequently `setCostData` with one ordering
followed by `getCostData` with another ordering returns the stored
value. -/
theorem cacheKey_commutative {V : Type} (provider : String)
    (params1 params2 : List (String × String))
    (hp : List.Perm params1 params2) (hnd : (params1.map Prod.fst).Nodup) :
    buildKey provider params1 = buildKey provider params2 ∧
    ∀ (store : List (String × V)) (v : V),
      getCostData (setCostData store provider params1 v) provider params2 = some v := by
  have hbk := buildKey_eq_of_perm provider params1 params2 hp hnd
  refine ⟨hbk, ?_⟩
  intro store v
  simp [getCostData, setCostData, cacheStoreGet, cacheStoreSet, hbk, List.find?_cons]

/-- Witness for C9: the specification's scenario 5 —
`setCostData('aws', {a:1, b:2}, X)` then `getCostData('aws', {b:2, a:1})`
returns `X`. -/
theorem cacheKey_commutative_witness :
    getCostData (setCostData ([] : List (String × ℕ)) "aws" [("a", "1"), ("b", "2")] 7)
      "aws" [("b", "2"), ("a", "1")] = some 7 :=
  (cacheKey_commutative "aws" [("a", "1"), ("b", "2")] [("b", "2"), ("a", "1")]
    (List.Perm.swap ("b", "2") ("a", "1") []) (by decide)).2 [] 7

/-- Claim C10: the cache key function is not injective — the parameter
records `{a: "1:b:2"}` and `{a: "1", b: "2"}` are different but build
the same key, so a value stored under one is read back by the other. -/
theorem cacheKey_collision :
    buildKey "aws" [("a", "1:b:2")] = buildKey "aws" [("a", "1"), ("b", "2")] ∧
    ([("a", "1:b:2")] : List (String × String)) ≠ [("a", "1"), ("b", "2")] ∧
    getCostData (setCostData ([] : List (String × ℕ)) "aws" [("a", "1:b:2")] 7)
      "aws" [("a", "1"), ("b", "2")] = some 7 :=
  ⟨by decide, by decide, by decide⟩

section AggregationLemmas

theorem getCostAggregate_fold :
    ∀ (results : List (String × Except JsError UnifiedCostData))
      (acc : List UnifiedCostData × List AggregateErrorRecord),
      results.foldl
        (fun (acc : List UnifiedCostData × List AggregateErrorRecord) nr =>
          match nr.2 with
          | .ok d => (acc.1 ++ [d], acc.2)
          | .error e => (acc.1, acc.2 ++ [⟨nr.1, e.message⟩]))
        acc
      = (acc.1 ++ aggOks results, acc.2 ++ aggErrs results) := by
  intro results
  induction results with
  | nil => intro acc; simp [aggOks, aggErrs]
  | cons nr rest ih =>
    intro acc
    obtain ⟨name, r⟩ := nr
    cases r with
    | ok d => simp [List.foldl_cons, ih, aggOks, aggErrs]
    | error e => simp [List.foldl_cons, ih, aggOks, aggErrs]

end AggregationLemmas

/-- Claim C3: aggregating across all configured providers, a provider
whose `getCosts` throws contributes exactly one `{provider, error}`
record to the error side-channel (the records are exactly, in order,
one per failing provider entry), the overall result is a success, and
the returned provider data are exactly those of the providers that did
not throw, in order — one failure never removes the others' results. -/
theorem getCost_aggregation_policy
    (results : List (String × Except JsError UnifiedCostData)) :
    (getCostAggregate results).success = true ∧
    (getCostAggregate results).providers = aggOks results ∧
    ((getCostAggregate results).errors.getD []) = aggErrs results := by
  unfold getCostAggregate
  rw [getCostAggregate_fold results ([], [])]
  refine ⟨rfl, by simp, ?_⟩
  by_cases h : aggErrs results = []
  · simp [h]
  · simp [h, List.isEmpty_iff]

/-- Claim C1, evaluated at a failing cache: in `AWSCostClient.getCosts`
a cache read failure propagates to the caller as the thrown
`CacheError`, and a cache write failure after a successful fetch turns
the success into a thrown `ProviderError`; the `getCache`-based OpenAI
variant likewise propagates the read failure.  Only the
`getCacheOrDefault`-based OpenAI variant satisfies the claimed
containment: it returns the fetched data unchanged under both cache
failures. -/
theorem c1_cache_error_evaluation :
    awsGetCosts (.error sampleCacheError) (.ok sampleCost) (fun _ => .ok ())
      = .error sampleCacheError ∧
    awsGetCosts (.ok none) (.ok sampleCost) (fun _ => .error sampleCacheError)
      = .error (providerError "aws" "Failed to fetch cost data") ∧
    openaiGetCostsUnsafe (.error sampleCacheError) (.ok sampleCost) (fun _ => .ok ())
      = .error sampleCacheError ∧
    openaiGetCostsSafe (.error sampleCacheError) (.ok sampleCost) (fun _ => .ok ())
      = .ok sampleCost ∧
    openaiGetCostsSafe (.ok none) (.ok sampleCost) (fun _ => .error sampleCacheError)
      = .ok sampleCost := by
  refine ⟨rfl, rfl, rfl, rfl, rfl⟩

section RetryLemmas

variable {ε α : Type}

theorem retryGo_ok (fn : ℕ → Except ε α) (shouldRetry : ε → Bool) (maxAttempts k : ℕ)
    (v : α) (hk : fn k = .ok v) (hkmax : k ≤ maxAttempts) :
    ∀ (remaining attempt : ℕ), attempt + remaining = maxAttempts + 1 → attempt ≤ k →
      (∀ i, attempt ≤ i → i < k → ∃ e, fn i = .error e ∧ shouldRetry e = true) →
      retryGo fn shouldRetry maxAttempts attempt remaining = ⟨.ok v, k⟩ := by
  intro remaining
  induction remaining with
  | zero => intro attempt hsum hak _; omega
  | succ rem ih =>
    intro attempt hsum hak hprev
    by_cases heq : attempt = k
    · subst heq
      simp [retryGo, hk]
    · have hlt : attempt < k := lt_of_le_of_ne hak heq
      obtain ⟨e, he, hre⟩ := hprev attempt le_rfl hlt
      have hne : (attempt == maxAttempts) = false := by
        have : attempt ≠ maxAttempts := by omega
        simpa using this
      have hstep : retryGo fn shouldRetry maxAttempts attempt (rem + 1)
          = retryGo fn shouldRetry maxAttempts (attempt + 1) rem := by
        simp [retryGo, he, hne, hre]
      rw [hstep]
      exact ih (attempt + 1) (by omega) hlt (fun i h1 h2 => hprev i (by omega) h2)

theorem retryGo_err (fn : ℕ → Except ε α) (shouldRetry : ε → Bool) (maxAttempts k : ℕ)
    (e : ε) (hk : fn k = .error e) (hkmax : k ≤ maxAttempts)
    (hstop : k = maxAttempts ∨ shouldRetry e = false) :
    ∀ (remaining attempt : ℕ), attempt + remaining = maxAttempts + 1 → attempt ≤ k →
      (∀ i, attempt ≤ i → i < k → ∃ e', fn i = .error e' ∧ shouldRetry e' = true) →
      retryGo fn shouldRetry maxAttempts attempt remaining = ⟨.err e, k⟩ := by
  intro remaining
  induction remaining with
  | zero => intro attempt hsum hak _; omega
  | succ rem ih =>
    intro attempt hsum hak hprev
    by_cases heq : attempt = k
    · subst heq
      have hcond : ((attempt == maxAttempts) || !shouldRetry e) = true := by
        rcases hstop with h | h
        · simp [h]
        · simp [h]
      simp [retryGo, hk, hcond]
    · have hlt : attempt < k := lt_of_le_of_ne hak heq
      obtain ⟨e', he', hre'⟩ := hprev attempt le_rfl hlt
      have hne : (attempt == maxAttempts) = false := by
        have : attempt ≠ maxAttempts := by omega
        simpa using this
      have hstep : retryGo fn shouldRetry maxAttempts attempt (rem + 1)
          = retryGo fn shouldRetry maxAttempts (attempt + 1) rem := by
        simp [retryGo, he', hne, hre']
      rw [hstep]
      exact ih (attempt + 1) (by omega) hlt (fun i h1 h2 => hprev i (by omega) h2)

end RetryLemmas

/-- Claim C4: the retry contract.  First: an operation succeeding on
attempt `k ≤ maxAttempts` after retryable errors is invoked exactly `k`
times and its success value returned.  Second: an operation failing on
every attempt with retryable errors is invoked exactly `maxAttempts`
times and the error thrown is the last attempt's error itself.  Third:
when `shouldRetry` rejects the error of attempt `k`, that error is
rethrown at once — exactly `k` invocations, error unchanged. -/
theorem retry_contract {ε α : Type} :
    (∀ (fn : ℕ → Except ε α) (shouldRetry : ε → Bool) (maxAttempts k : ℕ) (v : α),
      1 ≤ k → k ≤ maxAttempts → fn k = .ok v →
      (∀ i, 1 ≤ i → i < k → ∃ e, fn i = .error e ∧ shouldRetry e = true) →
      retryRun fn shouldRetry maxAttempts = ⟨.ok v, k⟩) ∧
    (∀ (fn : ℕ → Except ε α) (shouldRetry : ε → Bool) (maxAttempts : ℕ) (err : ℕ → ε),
      1 ≤ maxAttempts →
      (∀ i, 1 ≤ i → i ≤ maxAttempts → fn i = .error (err i) ∧ shouldRetry (err i) = true) →
      retryRun fn shouldRetry maxAttempts = ⟨.err (err maxAttempts), maxAttempts⟩) ∧
    (∀ (fn : ℕ → Except ε α) (shouldRetry : ε → Bool) (maxAttempts k : ℕ) (e : ε),
      1 ≤ k → k ≤ maxAttempts → fn k = .error e → shouldRetry e = false →
      (∀ i, 1 ≤ i → i < k → ∃ e', fn i = .error e' ∧ shouldRetry e' = true) →
      retryRun fn shouldRetry maxAttempts = ⟨.err e, k⟩) := by
  refine ⟨?_, ?_, ?_⟩
  · intro fn shouldRetry maxAttempts k v h1 hkmax hk hprev
    exact retryGo_ok fn shouldRetry maxAttempts k v hk hkmax maxAttempts 1 (by omega) h1 hprev
  · intro fn shouldRetry maxAttempts err h1 hall
    exact retryGo_err fn shouldRetry maxAttempts maxAttempts (err maxAttempts)
      (hall maxAttempts h1 le_rfl).1 le_rfl (Or.inl rfl) maxAttempts 1 (by omega) h1
      (fun i hi1 hi2 => ⟨err i, (hall i hi1 (by omega)).1, (hall i hi1 (by omega)).2⟩)
  · intro fn shouldRetry maxAttempts k e h1 hkmax hk hsr hprev
    exact retryGo_err fn shouldRetry maxAttempts k e hk hkmax (Or.inr hsr)
      maxAttempts 1 (by omega) h1 hprev

/-- Witness for C4: the three retry cases at `maxAttempts = 3` —
success on the third attempt after two retryable errors (3 calls,
value returned); failure on all three attempts (3 calls, the third
error thrown); a non-retryable error on attempt 2 (2 calls, that error
thrown). -/
theorem retry_contract_witness :
    retryRun retryFnSucceedsThird (fun _ => true) 3 = ⟨.ok 9, 3⟩ ∧
    retryRun retryFnAlwaysFails (fun _ => true) 3 = ⟨.err 3, 3⟩ ∧
    retryRun retryFnAlwaysFails retryOnlyCodeOne 3 = ⟨.err 2, 2⟩ := by
  refine ⟨?_, ?_, ?_⟩
  · exact retry_contract.1 retryFnSucceedsThird (fun _ => true) 3 3 9 (by omega) (by omega)
      (by simp [retryFnSucceedsThird])
      (fun i h1 h2 => ⟨i, by simp [retryFnSucceedsThird]; omega, rfl⟩)
  · exact retry_contract.2.1 retryFnAlwaysFails (fun _ => true) 3 (fun i => i) (by omega)
      (fun i _ _ => ⟨rfl, rfl⟩)
  · exact retry_contract.2.2 retryFnAlwaysFails retryOnlyCodeOne 3 2 2 (by omega) (by omega)
      rfl (by decide)
      (fun i h1 h2 => ⟨i, rfl, by
        have : i = 1 := by omega
        simp [this, retryOnlyCodeOne]⟩)

section TrendLemmas

theorem trendPoints_head :
    ∀ (l : List CostBreakdown) (t : TrendData) (ts : List TrendData),
      trendPoints l 0 = t :: ts → t.changePercentage = 0 ∧ t.changeFromPrevious = t.cost := by
  intro l
  induction l with
  | nil => intro t ts h; simp [trendPoints] at h
  | cons it rest ih =>
    intro t ts h
    cases hd : it.date with
    | none =>
      rw [trendPoints, hd] at h
      exact ih t ts h
    | some d =>
      rw [trendPoints, hd] at h
      have hzero : ¬ ((0 : ℚ) > 0) := by norm_num
      simp only [if_neg hzero] at h
      obtain ⟨rfl, -⟩ := List.cons.injEq .. ▸ h
      simp

end TrendLemmas

/-- Claim C2 counterexample: for a series built from a single dated
point of cost 5, the only trend point has `changeFromPrevious = 5` (its
own cost, since the code seeds `previousCost` with 0), not 0 as the
claim states; `changePercentage` is 0. -/
theorem trends_first_point_counterexample :
    calculateTrends singlePointData = [⟨0, 5, 5, 0⟩] ∧
    (TrendData.changeFromPrevious ⟨0, 5, 5, 0⟩ ≠ 0) := by
  constructor
  · simp [calculateTrends, singlePointData, stableSort, stableInsert, trendPoints, mkItem]
  · norm_num

/-- Claim C2 as amended: in every trend series, the first point has
`changePercentage = 0`, and its `changeFromPrevious` equals its own
cost (the code computes it against an initial previous cost of 0); in
particular a single-point series has `changeFromPrevious` equal to the
point's cost and `changePercentage = 0`. -/
theorem trends_first_point (cd : UnifiedCostData) (t : TrendData) (ts : List TrendData)
    (h : calculateTrends cd = t :: ts) :
    t.changePercentage = 0 ∧ t.changeFromPrevious = t.cost :=
  trendPoints_head _ t ts h

/-- Witness for C2 (amended): the single-point series of
`singlePointData` has first-point deltas `changePercentage = 0` and
`changeFromPrevious = cost = 5`. -/
theorem trends_first_point_witness :
    TrendData.changePercentage ⟨0, 5, 5, 0⟩ = 0 ∧
    TrendData.changeFromPrevious ⟨0, 5, 5, 0⟩ = TrendData.cost ⟨0, 5, 5, 0⟩ :=
  trends_first_point singlePointData ⟨0, 5, 5, 0⟩ []
    (by simp [calculateTrends, singlePointData, stableSort, stableInsert, trendPoints, mkItem])

/-- Claim C8 counterexample: `getCostTool` validates with strict `>`,
so a request with `startDate = endDate` (here both 0) is not rejected —
it proceeds to the provider and returns its data, although the claim
requires an immediate `ValidationError` whenever start ≥ end. -/
theorem tool_validation_counterexample :
    getCostToolRun [("aws", Except.ok sampleCost)] (some "aws") 0 0
      = .ok (.single sampleCost) ∧ (0 : ℤ) ≥ 0 := by
  exact ⟨rfl, le_refl 0⟩

/-- Claim C8 as amended: the breakdown and period-comparison tools
reject `start ≥ end` and the cost tool rejects only `start > end`
(equal dates pass through to the provider); all three reject an
unconfigured provider id; each rejection happens in the tool itself,
before and independent of any provider behaviour (the conclusion holds
for every provider oracle), with no retry involved. -/
theorem tool_validation (startDate endDate p1s p1e p2s p2e : ℤ) (name : String)
    (dims : List Dimension) (topN : ℕ) (threshold : Option ℚ) (ib : Bool) :
    (∀ providers providerArg, startDate ≥ endDate →
      getCostBreakdownToolRun providers providerArg startDate endDate dims topN threshold
        = .error (.validation "Start date must be before end date")) ∧
    (∀ providers providerArg, p1s ≥ p1e ∨ p2s ≥ p2e →
      getCostPeriodsToolRun providers providerArg p1s p1e p2s p2e ib
        = .error (.validation "Start date must be before end date for each period")) ∧
    (∀ providers providerArg, startDate > endDate →
      getCostToolRun providers providerArg startDate endDate
        = .error (.validation "Start date must be before end date")) ∧
    (∀ (providers : List (String × Except JsError UnifiedCostData)),
      ¬ startDate > endDate → lookupProvider providers name = none →
      getCostToolRun providers (some name) startDate endDate
        = .error (.validation ("Provider " ++ name ++ " not configured"))) ∧
    (∀ (providers : List (String × Except JsError UnifiedCostData)),
      ¬ startDate ≥ endDate → lookupProvider providers name = none →
      getCostBreakdownToolRun providers (some name) startDate endDate dims topN threshold
        = .error (.validation ("Provider " ++ name ++ " not configured"))) ∧
    (∀ (providers : List (String × Except JsError (UnifiedCostData × UnifiedCostData))),
      ¬ p1s ≥ p1e → ¬ p2s ≥ p2e → lookupProvider providers name = none →
      getCostPeriodsToolRun providers (some name) p1s p1e p2s p2e ib
        = .error (.validation ("Provider " ++ name ++ " not configured"))) := by
  refine ⟨?_, ?_, ?_, ?_, ?_, ?_⟩
  · intro providers providerArg h
    simp [getCostBreakdownToolRun, h]
  · intro providers providerArg h
    rcases h with h | h <;> simp [getCostPeriodsToolRun, h]
  · intro providers providerArg h
    simp [getCostToolRun, h]
  · intro providers h hnone
    simp [getCostToolRun, h, hnone]
  · intro providers h hnone
    simp [getCostBreakdownToolRun, h, hnone]
  · intro providers h1 h2 hnone
    simp [getCostPeriodsToolRun, h1, h2, hnone]

/-- Witness for C8 (amended): concrete rejections — breakdown with
equal dates, period comparison with an inverted period, cost tool with
start after end, and cost tool with an unknown provider id. -/
theorem tool_validation_witness :
    getCostBreakdownToolRun [("aws", Except.ok sampleCost)] none 0 0
        [Dimension.service] 10 none
      = .error (.validation "Start date must be before end date") ∧
    getCostPeriodsToolRun
        ([] : List (String × Except JsError (UnifiedCostData × UnifiedCostData)))
        none 5 3 0 1 true
      = .error (.validation "Start date must be before end date for each period") ∧
    getCostToolRun [("aws", Except.ok sampleCost)] none 1 0
      = .error (.validation "Start date must be before end date") ∧
    getCostToolRun [("aws", Except.ok sampleCost)] (some "gcp") 0 1
      = .error (.validation ("Provider " ++ "gcp" ++ " not configured")) :=
  ⟨(tool_validation 0 0 5 3 0 1 "gcp" [Dimension.service] 10 none true).1
      [("aws", Except.ok sampleCost)] none (by norm_num),
   (tool_validation 0 0 5 3 0 1 "gcp" [Dimension.service] 10 none true).2.1
      [] none (Or.inl (by norm_num)),
   (tool_validation 1 0 5 3 0 1 "gcp" [Dimension.service] 10 none true).2.2.1
      [("aws", Except.ok sampleCost)] none (by norm_num),
   (tool_validation 0 1 5 3 0 1 "gcp" [Dimension.service] 10 none true).2.2.2.1
      [("aws", Except.ok sampleCost)] (by norm_num) rfl⟩

section PeriodLemmas

theorem serviceComparison_mem (c1 c2 : UnifiedCostData) (r : ServiceComparison)
    (hr : r ∈ calculateBreakdownComparison c1 c2) :
    r.difference = r.period2Cost - r.period1Cost ∧
    r.percentageChange =
      (if r.period1Cost > 0 then (r.period2Cost - r.period1Cost) / r.period1Cost * 100
       else if r.period2Cost > 0 then 100 else 0) := by
  rw [calculateBreakdownComparison] at hr
  have hmem := (mem_stableSort _ _ r).mp hr
  obtain ⟨kv, hkv, rfl⟩ := List.mem_map.mp hmem
  exact ⟨rfl, rfl⟩

end PeriodLemmas

/-- Claim C7: the period comparison computes
`days = ceil((end-start)/1 day)` per period (positive for valid
ranges), `dailyAverage = total/days`,
`absoluteDifference = total2 - total1`, `percentageChange` by the ratio
formula when `total1 > 0` and 0 otherwise (so `total1 = 0` gives 0),
the >5 / <-5 trend classification, and per-service records whose
`difference` and `percentageChange` follow the service formula, a
service with zero period-1 cost and positive period-2 cost getting
`percentageChange = 100`. -/
theorem comparePeriods_spec (p1s p1e p2s p2e : ℤ) (c1 c2 : UnifiedCostData) (ib : Bool)
    (h1 : p1s < p1e) (h2 : p2s < p2e) (r : PeriodComparison)
    (hr : comparePeriods p1s p1e p2s p2e c1 c2 ib = r) :
    r.period1.days = ⌈((p1e - p1s : ℤ) : ℚ) / 86400000⌉ ∧
    r.period2.days = ⌈((p2e - p2s : ℤ) : ℚ) / 86400000⌉ ∧
    0 < r.period1.days ∧
    0 < r.period2.days ∧
    r.period1.dailyAverage = c1.costs.total / (r.period1.days : ℚ) ∧
    r.period2.dailyAverage = c2.costs.total / (r.period2.days : ℚ) ∧
    r.comparison.absoluteDifference = c2.costs.total - c1.costs.total ∧
    r.comparison.percentageChange =
      (if c1.costs.total > 0 then
        (c2.costs.total - c1.costs.total) / c1.costs.total * 100
       else 0) ∧
    (c1.costs.total = 0 → r.comparison.percentageChange = 0) ∧
    (r.comparison.percentageChange > 5 → r.comparison.trend = .increase) ∧
    (r.comparison.percentageChange < -5 → r.comparison.trend = .decrease) ∧
    (¬ r.comparison.percentageChange > 5 → ¬ r.comparison.percentageChange < -5 →
      r.comparison.trend = .stable) ∧
    (ib = true → ∀ s ∈ r.breakdown.getD [],
      s.difference = s.period2Cost - s.period1Cost ∧
      s.percentageChange =
        (if s.period1Cost > 0 then
          (s.period2Cost - s.period1Cost) / s.period1Cost * 100
         else if s.period2Cost > 0 then 100 else 0) ∧
      (s.period1Cost = 0 → 0 < s.period2Cost → s.percentageChange = 100)) := by
  subst hr
  have hday1 : (0 : ℤ) < periodDays p1s p1e := by
    rw [periodDays]
    rw [Int.ceil_pos]
    apply div_pos
    · exact_mod_cast sub_pos.mpr h1
    · norm_num
  have hday2 : (0 : ℤ) < periodDays p2s p2e := by
    rw [periodDays]
    rw [Int.ceil_pos]
    apply div_pos
    · exact_mod_cast sub_pos.mpr h2
    · norm_num
  refine ⟨rfl, rfl, hday1, hday2, rfl, rfl, rfl, rfl, ?_, ?_, ?_, ?_, ?_⟩
  · intro h0
    simp [comparePeriods, h0]
  · intro hgt
    simp only [comparePeriods] at hgt ⊢
    rw [if_pos hgt]
  · intro hlt
    simp only [comparePeriods] at hlt ⊢
    have hng : ¬ ((if c1.costs.total > 0 then
        (c2.costs.total - c1.costs.total) / c1.costs.total * 100 else 0) > 5) := by
      intro hgt
      linarith
    rw [if_neg hng, if_pos hlt]
  · intro hngt hnlt
    simp only [comparePeriods] at hngt hnlt ⊢
    rw [if_neg hngt, if_neg hnlt]
  · intro hib s hs
    rcases hib
    simp only [comparePeriods, if_pos rfl] at hs
    have hs' : s ∈ calculateBreakdownComparison c1 c2 := by simpa using hs
    have hmem := serviceComparison_mem c1 c2 s hs'
    refine ⟨hmem.1, hmem.2, ?_⟩
    intro hz hp
    rw [hmem.2, if_neg (by rw [hz]; norm_num), if_pos hp]

/-- Witness for C7: comparing one-day periods with totals 10 and 19,
the period length is positive, the absolute difference is 9, and every
per-service record with zero period-1 cost and positive period-2 cost
(the new service N) has `percentageChange = 100`. -/
theorem comparePeriods_spec_witness :
    0 < (comparePeriods 0 86400000 86400000 172800000
          periodOneData periodTwoData true).period1.days ∧
    (comparePeriods 0 86400000 86400000 172800000
        periodOneData periodTwoData true).comparison.absoluteDifference = 9 ∧
    ∀ s ∈ ((comparePeriods 0 86400000 86400000 172800000
        periodOneData periodTwoData true).breakdown.getD []),
      s.period1Cost = 0 → 0 < s.period2Cost → s.percentageChange = 100 := by
  have h := comparePeriods_spec 0 86400000 86400000 172800000 periodOneData periodTwoData
    true (by norm_num) (by norm_num) _ rfl
  refine ⟨h.2.2.1, ?_, ?_⟩
  · rw [h.2.2.2.2.2.2.1]
    norm_num [periodOneData, periodTwoData]
  · intro s hs h0 hp
    exact ((h.2.2.2.2.2.2.2.2.2.2.2.2 rfl) s hs).2.2 h0 hp

section GroupingLemmas

theorem mem_encounterKeys : ∀ (ks : List String) (k : String),
    k ∈ encounterKeys ks ↔ k ∈ ks := by
  intro ks
  induction ks with
  | nil => intro k; simp [encounterKeys]
  | cons k' ks ih =>
    intro k
    simp only [encounterKeys, List.mem_cons, List.mem_filter]
    constructor
    · rintro (rfl | ⟨hmem, -⟩)
      · exact Or.inl rfl
      · exact Or.inr ((ih k).mp hmem)
    · rintro (rfl | hmem)
      · exact Or.inl rfl
      · by_cases hk : k = k'
        · exact Or.inl hk
        · exact Or.inr ⟨(ih k).mpr hmem, by simpa using hk⟩

theorem encounterKeys_nodup : ∀ (ks : List String), (encounterKeys ks).Nodup := by
  intro ks
  induction ks with
  | nil => simp [encounterKeys]
  | cons k' ks ih =>
    rw [encounterKeys, List.nodup_cons]
    constructor
    · intro hmem
      have := (List.mem_filter.mp hmem).2
      simp at this
    · exact ih.filter _

theorem encounterKeys_append_singleton : ∀ (ks : List String) (k : String),
    encounterKeys (ks ++ [k])
      = if k ∈ ks then encounterKeys ks else encounterKeys ks ++ [k] := by
  intro ks
  induction ks with
  | nil => intro k; simp [encounterKeys]
  | cons k' ks ih =>
    intro k
    rw [List.cons_append, encounterKeys, ih k, encounterKeys]
    by_cases hmem : k ∈ ks
    · rw [if_pos hmem, if_pos (List.mem_cons.mpr (Or.inr hmem))]
    · rw [if_neg hmem]
      by_cases hk : k = k'
      · subst hk
        rw [if_pos (List.mem_cons.mpr (Or.inl rfl)), List.filter_append]
        simp
      · have : k ∉ (k' :: ks) := by
          simp only [List.mem_cons]
          push_neg
          exact ⟨hk, hmem⟩
        rw [if_neg this, List.filter_append]
        simp only [List.filter_cons, List.filter_nil]
        have hkk' : (!(k == k')) = true := by simpa using hk
        simp [hkk']

theorem keySum_append_singleton (dim : Option Dimension) (k' : String)
    (l : List CostBreakdown) (x : CostBreakdown) :
    keySum dim k' (l ++ [x])
      = keySum dim k' l + (if dimKey dim x = k' then x.amount else 0) := by
  simp only [keySum, List.filter_append, List.map_append, List.sum_append]
  congr 1
  by_cases h : dimKey dim x = k'
  · simp [h]
  · have : (dimKey dim x == k') = false := by simpa using h
    simp [this, h]

theorem keySum_eq_zero_of_not_mem (dim : Option Dimension) (k : String)
    (l : List CostBreakdown) (h : k ∉ l.map (dimKey dim)) : keySum dim k l = 0 := by
  have : l.filter (fun it => dimKey dim it == k) = [] := by
    rw [List.filter_eq_nil_iff]
    intro it hit
    intro hbeq
    apply h
    rw [List.mem_map]
    exact ⟨it, hit, by simpa using hbeq⟩
  simp [keySum, this]

theorem addToGroups_map_of_mem : ∀ (ks : List String) (s : String → ℚ) (k : String) (a : ℚ),
    ks.Nodup → k ∈ ks →
    addToGroups (ks.map (fun k' => (k', s k'))) k a
      = ks.map (fun k' => (k', if k' = k then s k' + a else s k')) := by
  intro ks
  induction ks with
  | nil => intro s k a _ h; simp at h
  | cons k₀ ks ih =>
    intro s k a hnd hmem
    rw [List.nodup_cons] at hnd
    simp only [List.map_cons, addToGroups]
    by_cases hk : k₀ = k
    · subst hk
      simp only [beq_self_eq_true, if_pos]
      congr 1
      apply List.map_congr_left
      intro k' hk'
      have : k' ≠ k₀ := fun h => hnd.1 (h ▸ hk')
      rw [if_neg this]
    · have hbeq : (k₀ == k) = false := by simpa using hk
      rw [hbeq]
      simp only [Bool.false_eq_true, if_false]
      rw [if_neg hk]
      have hmem' : k ∈ ks := by
        rcases List.mem_cons.mp hmem with h | h
        · exact absurd h.symm hk
        · exact h
      rw [ih s k a hnd.2 hmem']

theorem addToGroups_map_of_not_mem : ∀ (ks : List String) (s : String → ℚ) (k : String) (a : ℚ),
    k ∉ ks →
    addToGroups (ks.map (fun k' => (k', s k'))) k a
      = ks.map (fun k' => (k', s k')) ++ [(k, a)] := by
  intro ks
  induction ks with
  | nil => intro s k a _; simp [addToGroups]
  | cons k₀ ks ih =>
    intro s k a hmem
    simp only [List.map_cons, addToGroups]
    have hk : k₀ ≠ k := fun h => hmem (List.mem_cons.mpr (Or.inl h.symm))
    have hbeq : (k₀ == k) = false := by simpa using hk
    rw [hbeq]
    simp only [Bool.false_eq_true, if_false]
    rw [ih s k a (fun h => hmem (List.mem_cons.mpr (Or.inr h)))]
    simp

theorem groupAmounts_eq_specGroups (dim : Option Dimension) :
    ∀ (items : List CostBreakdown), groupAmounts dim items = specGroups dim items := by
  intro items
  induction items using List.reverseRecOn with
  | nil => simp [groupAmounts, specGroups, encounterKeys]
  | append_singleton l x ih =>
    have hfold : groupAmounts dim (l ++ [x])
        = addToGroups (groupAmounts dim l) (dimKey dim x) x.amount := by
      simp [groupAmounts, List.foldl_append]
    rw [hfold, ih]
    by_cases hmem : dimKey dim x ∈ l.map (dimKey dim)
    · have hkeys : dimKey dim x ∈ encounterKeys (l.map (dimKey dim)) :=
        (mem_encounterKeys _ _).mpr hmem
      rw [specGroups, addToGroups_map_of_mem _ _ _ _ (encounterKeys_nodup _) hkeys]
      rw [specGroups, List.map_append]
      simp only [List.map_cons, List.map_nil]
      rw [encounterKeys_append_singleton, if_pos hmem]
      apply List.map_congr_left
      intro k' _
      rw [keySum_append_singleton]
      by_cases hk' : k' = dimKey dim x
      · rw [if_pos hk', if_pos hk'.symm]
      · rw [if_neg hk', if_neg (fun h => hk' h.symm), add_zero]
    · have hkeys : dimKey dim x ∉ encounterKeys (l.map (dimKey dim)) :=
        fun h => hmem ((mem_encounterKeys _ _).mp h)
      rw [specGroups, addToGroups_map_of_not_mem _ _ _ _ hkeys]
      rw [specGroups, List.map_append]
      simp only [List.map_cons, List.map_nil]
      rw [encounterKeys_append_singleton, if_neg hmem]
      rw [List.map_append]
      congr 1
      · apply List.map_congr_left
        intro k' hk'
        have hne : k' ≠ dimKey dim x := fun h => hkeys (h ▸ hk')
        rw [keySum_append_singleton, if_neg (fun h => hne h.symm), add_zero]
      · simp only [List.map_cons, List.map_nil]
        rw [keySum_append_singleton, keySum_eq_zero_of_not_mem dim _ l hmem,
          if_pos rfl, zero_add]

theorem breakdownBase_eq_claim (dim : Option Dimension) (cd : UnifiedCostData) (topN : ℕ)
    (threshold : Option ℚ) :
    breakdownBase dim cd topN threshold = claimBreakdownBase dim cd topN threshold := by
  unfold breakdownBase claimBreakdownBase
  rw [groupAmounts_eq_specGroups]

end GroupingLemmas

section BreakdownRefinement

theorem attachSubs_eq_map (d : Dimension) (cd : UnifiedCostData)
    (sub : UnifiedCostData → List BreakdownItem) :
    ∀ (l : List BreakdownItem),
      attachSubs d cd sub l
        = l.map (fun it =>
            let filtered := cd.costs.breakdown.filter (filterMatch d it.key)
            if filtered.isEmpty then it
            else it.withSub (sub (restrictData cd filtered))) := by
  intro l
  induction l with
  | nil => rfl
  | cons it its ih => simp only [attachSubs, List.map_cons, ih]

theorem calcBreakdownDims_eq_amended :
    ∀ (dims : List Dimension) (cd : UnifiedCostData) (topN : ℕ) (threshold : Option ℚ),
      calcBreakdownDims dims cd topN threshold = amendedBreakdown dims cd topN threshold := by
  intro dims
  induction dims with
  | nil =>
    intro cd topN threshold
    simp only [calcBreakdownDims, amendedBreakdown, breakdownBase_eq_claim]
  | cons d rest ih =>
    intro cd topN threshold
    simp only [calcBreakdownDims, amendedBreakdown, breakdownBase_eq_claim]
    by_cases hempty : rest.isEmpty
    · rw [if_pos hempty, if_pos hempty]
    · rw [if_neg hempty, if_neg hempty, attachSubs_eq_map]
      apply List.map_congr_left
      intro it _
      simp only [ih]

end BreakdownRefinement

/-- Claim C5 counterexample: for one undated line item and dimensions
`[date, service]`, the code's retained group `"Unknown Date"` gets no
sub-breakdown (the date filter recovers nothing for undated items),
while the claimed algorithm builds one from the group's item — the two
results differ on the stated input. -/
theorem breakdown_subgroup_counterexample :
    calculateBreakdown undatedItemData [Dimension.date, Dimension.service] 10 none
      ≠ claimBreakdown [Dimension.date, Dimension.service] undatedItemData 10 none := by
  intro h
  have h1 : headHasSub
      (calculateBreakdown undatedItemData [Dimension.date, Dimension.service] 10 none)
      = false := rfl
  have h2 : headHasSub
      (claimBreakdown [Dimension.date, Dimension.service] undatedItemData 10 none)
      = true := rfl
  rw [h, h2] at h1
  exact Bool.noConfusion h1

/-- Claim C5 as amended: the breakdown engine groups by the first
dimension with the fixed fallback labels, sums amounts per group key,
sets `percentage = amount/total*100`, stable-sorts descending by
amount, applies the threshold filter before the `topN` slice, and, when
further dimensions remain, builds each retained group's sub-breakdown
(recursive `topN` fixed at 5, no threshold) from the items the
dimension filter recovers for the group key — for the `date` dimension
this recovers only dated items, so a group of undated items gets no
sub-breakdown — omitting it when nothing is recovered. -/
theorem breakdown_algorithm (cd : UnifiedCostData) (dims : List Dimension) (topN : ℕ)
    (threshold : Option ℚ) :
    calculateBreakdown cd dims topN threshold = amendedBreakdown dims cd topN threshold :=
  calcBreakdownDims_eq_amended dims cd topN threshold

section PercentageSumLemmas

theorem withSub_percentage (it : BreakdownItem) (s : List BreakdownItem) :
    (it.withSub s).percentage = it.percentage := by
  cases it; rfl

theorem withSub_value (it : BreakdownItem) (s : List BreakdownItem) :
    (it.withSub s).value = it.value := by
  cases it; rfl

theorem ite_withSub_percentage (c : Prop) [Decidable c] (it : BreakdownItem)
    (s : List BreakdownItem) :
    (if c then it else it.withSub s).percentage = it.percentage := by
  by_cases h : c
  · rw [if_pos h]
  · rw [if_neg h, withSub_percentage]

theorem ite_withSub_value (c : Prop) [Decidable c] (it : BreakdownItem)
    (s : List BreakdownItem) :
    (if c then it else it.withSub s).value = it.value := by
  by_cases h : c
  · rw [if_pos h]
  · rw [if_neg h, withSub_value]

theorem attachSubs_map_percentage (d : Dimension) (cd : UnifiedCostData)
    (sub : UnifiedCostData → List BreakdownItem) :
    ∀ (l : List BreakdownItem),
      (attachSubs d cd sub l).map BreakdownItem.percentage
        = l.map BreakdownItem.percentage := by
  intro l
  induction l with
  | nil => rfl
  | cons it its ih =>
    simp only [attachSubs, List.map_cons, ih]
    congr 1
    exact ite_withSub_percentage _ it _

theorem attachSubs_map_value (d : Dimension) (cd : UnifiedCostData)
    (sub : UnifiedCostData → List BreakdownItem) :
    ∀ (l : List BreakdownItem),
      (attachSubs d cd sub l).map BreakdownItem.value = l.map BreakdownItem.value := by
  intro l
  induction l with
  | nil => rfl
  | cons it its ih =>
    simp only [attachSubs, List.map_cons, ih]
    congr 1
    exact ite_withSub_value _ it _

theorem calcBreakdownDims_map_percentage (dims : List Dimension) (cd : UnifiedCostData)
    (topN : ℕ) (threshold : Option ℚ) :
    (calcBreakdownDims dims cd topN threshold).map BreakdownItem.percentage
      = (breakdownBase dims.head? cd topN threshold).map BreakdownItem.percentage := by
  cases dims with
  | nil => rfl
  | cons d rest =>
    simp only [calcBreakdownDims, List.head?]
    by_cases h : rest.isEmpty
    · rw [if_pos h]
    · rw [if_neg h, attachSubs_map_percentage]

theorem calcBreakdownDims_map_value (dims : List Dimension) (cd : UnifiedCostData)
    (topN : ℕ) (threshold : Option ℚ) :
    (calcBreakdownDims dims cd topN threshold).map BreakdownItem.value
      = (breakdownBase dims.head? cd topN threshold).map BreakdownItem.value := by
  cases dims with
  | nil => rfl
  | cons d rest =>
    simp only [calcBreakdownDims, List.head?]
    by_cases h : rest.isEmpty
    · rw [if_pos h]
    · rw [if_neg h, attachSubs_map_value]

theorem addToGroups_snd_sum : ∀ (g : List (String × ℚ)) (k : String) (a : ℚ),
    ((addToGroups g k a).map Prod.snd).sum = (g.map Prod.snd).sum + a := by
  intro g
  induction g with
  | nil => intro k a; simp [addToGroups]
  | cons kv rest ih =>
    intro k a
    obtain ⟨k₀, v⟩ := kv
    simp only [addToGroups]
    by_cases h : (k₀ == k) = true
    · simp only [h, if_pos]
      simp [List.map_cons, List.sum_cons]
      ring
    · have h' : (k₀ == k) = false := by simpa using h
      simp only [h', Bool.false_eq_true, if_false, List.map_cons, List.sum_cons, ih]
      ring

theorem foldl_groups_snd_sum (dim : Option Dimension) :
    ∀ (items : List CostBreakdown) (g : List (String × ℚ)),
      (((items.foldl (fun g it => addToGroups g (dimKey dim it) it.amount) g)).map
          Prod.snd).sum
        = (g.map Prod.snd).sum + (items.map CostBreakdown.amount).sum := by
  intro items
  induction items with
  | nil => intro g; simp
  | cons it rest ih =>
    intro g
    simp only [List.foldl_cons, List.map_cons, List.sum_cons, ih, addToGroups_snd_sum]
    ring

theorem groupAmounts_snd_sum (dim : Option Dimension) (items : List CostBreakdown) :
    ((groupAmounts dim items).map Prod.snd).sum = (items.map CostBreakdown.amount).sum := by
  rw [groupAmounts, foldl_groups_snd_sum]
  simp

theorem addToGroups_snd_nonneg : ∀ (g : List (String × ℚ)) (k : String) (a : ℚ),
    (∀ kv ∈ g, 0 ≤ kv.2) → 0 ≤ a → ∀ kv ∈ addToGroups g k a, 0 ≤ kv.2 := by
  intro g
  induction g with
  | nil =>
    intro k a _ ha kv hkv
    simp only [addToGroups, List.mem_singleton] at hkv
    subst hkv
    exact ha
  | cons kv₀ rest ih =>
    intro k a hg ha kv hkv
    obtain ⟨k₀, v⟩ := kv₀
    simp only [addToGroups] at hkv
    by_cases h : (k₀ == k) = true
    · simp only [h, if_pos, List.mem_cons] at hkv
      rcases hkv with rfl | hkv
      · have hv : 0 ≤ v := hg (k₀, v) (List.mem_cons.mpr (Or.inl rfl))
        exact add_nonneg hv ha
      · exact hg kv (List.mem_cons.mpr (Or.inr hkv))
    · have h' : (k₀ == k) = false := by simpa using h
      simp only [h', Bool.false_eq_true, if_false, List.mem_cons] at hkv
      rcases hkv with rfl | hkv
      · exact hg (k₀, v) (List.mem_cons.mpr (Or.inl rfl))
      · exact ih k a (fun kv' h' => hg kv' (List.mem_cons.mpr (Or.inr h'))) ha kv hkv

theorem foldl_groups_snd_nonneg (dim : Option Dimension) :
    ∀ (items : List CostBreakdown) (g : List (String × ℚ)),
      (∀ kv ∈ g, 0 ≤ kv.2) → (∀ it ∈ items, 0 ≤ it.amount) →
      ∀ kv ∈ items.foldl (fun g it => addToGroups g (dimKey dim it) it.amount) g,
        0 ≤ kv.2 := by
  intro items
  induction items with
  | nil => intro g hg _ kv hkv; exact hg kv hkv
  | cons it rest ih =>
    intro g hg hits kv hkv
    simp only [List.foldl_cons] at hkv
    exact ih _
      (addToGroups_snd_nonneg g (dimKey dim it) it.amount hg
        (hits it (List.mem_cons.mpr (Or.inl rfl))))
      (fun it' h => hits it' (List.mem_cons.mpr (Or.inr h)))
      kv hkv

theorem groupAmounts_snd_nonneg (dim : Option Dimension) (items : List CostBreakdown)
    (hnn : ∀ it ∈ items, 0 ≤ it.amount) :
    ∀ kv ∈ groupAmounts dim items, 0 ≤ kv.2 :=
  foldl_groups_snd_nonneg dim items [] (by simp) hnn

theorem pct_sum_formula (T : ℚ) : ∀ (l : List BreakdownItem),
    (∀ it ∈ l, it.percentage = it.value / T * 100) →
    (l.map BreakdownItem.percentage).sum = (l.map BreakdownItem.value).sum / T * 100 := by
  intro l
  induction l with
  | nil => intro _; simp
  | cons it its ih =>
    intro h
    simp only [List.map_cons, List.sum_cons]
    rw [h it (List.mem_cons.mpr (Or.inl rfl)),
      ih (fun it' h' => h it' (List.mem_cons.mpr (Or.inr h')))]
    ring

end PercentageSumLemmas

section BreakdownBoundLemmas

theorem breakdownBase_sublist (dim : Option Dimension) (cd : UnifiedCostData) (topN : ℕ)
    (threshold : Option ℚ) :
    List.Sublist (breakdownBase dim cd topN threshold)
      (stableSort (fun (a b : BreakdownItem) => decide (b.value ≤ a.value))
        ((groupAmounts dim cd.costs.breakdown).map
          (fun kv => BreakdownItem.mk kv.1 kv.2 (kv.2 / cd.costs.total * 100) none))) := by
  cases threshold with
  | none =>
    simp only [breakdownBase]
    exact List.take_sublist _ _
  | some t =>
    simp only [breakdownBase]
    exact (List.take_sublist _ _).trans (List.filter_sublist _)

theorem breakdownBase_mem_shape (dim : Option Dimension) (cd : UnifiedCostData) (topN : ℕ)
    (threshold : Option ℚ) (it : BreakdownItem) (h : it ∈ breakdownBase dim cd topN threshold) :
    ∃ kv, kv ∈ groupAmounts dim cd.costs.breakdown ∧
      it = BreakdownItem.mk kv.1 kv.2 (kv.2 / cd.costs.total * 100) none := by
  have hsorted := (breakdownBase_sublist dim cd topN threshold).subset h
  have hmapped := (mem_stableSort _ _ it).mp hsorted
  obtain ⟨kv, hkv, heq⟩ := List.mem_map.mp hmapped
  exact ⟨kv, hkv, heq.symm⟩

end BreakdownBoundLemmas

/-- Claim C6: for cost data whose breakdown amounts are non-negative
and sum to a positive total, the percentages of the returned top-level
items sum to at most 100; and when no threshold is given (or the
threshold is 0) and `topN` is at least the number of distinct group
keys, the percentages sum to exactly 100 and `coveragePercentage` is
exactly 100 (the arithmetic is exact over `ℚ`, so "within rounding"
holds with no error at all). -/
theorem breakdown_percentage_sums (name : String) (cd : UnifiedCostData)
    (dims : List Dimension) (topN : ℕ) (threshold : Option ℚ)
    (hnn : ∀ it ∈ cd.costs.breakdown, 0 ≤ it.amount)
    (hsum : (cd.costs.breakdown.map CostBreakdown.amount).sum = cd.costs.total)
    (hpos : 0 < cd.costs.total) :
    ((calculateBreakdown cd dims topN threshold).map BreakdownItem.percentage).sum ≤ 100 ∧
    ((threshold = none ∨ threshold = some 0) →
      (groupAmounts dims.head? cd.costs.breakdown).length ≤ topN →
      ((calculateBreakdown cd dims topN threshold).map BreakdownItem.percentage).sum = 100 ∧
      (analyzeBreakdown name cd dims topN threshold).coveragePercentage = 100) := by
  have hpct := calcBreakdownDims_map_percentage dims cd topN threshold
  have hval := calcBreakdownDims_map_value dims cd topN threshold
  have hperm := stableSort_perm (fun (a b : BreakdownItem) => decide (b.value ≤ a.value))
    ((groupAmounts dims.head? cd.costs.breakdown).map
      (fun kv => BreakdownItem.mk kv.1 kv.2 (kv.2 / cd.costs.total * 100) none))
  have hmapped_val :
      (((groupAmounts dims.head? cd.costs.breakdown).map
          (fun kv => BreakdownItem.mk kv.1 kv.2 (kv.2 / cd.costs.total * 100) none)).map
        BreakdownItem.value)
      = (groupAmounts dims.head? cd.costs.breakdown).map Prod.snd := by
    rw [List.map_map]; rfl
  have hsorted_val_sum :
      ((stableSort (fun (a b : BreakdownItem) => decide (b.value ≤ a.value))
          ((groupAmounts dims.head? cd.costs.breakdown).map
            (fun kv => BreakdownItem.mk kv.1 kv.2 (kv.2 / cd.costs.total * 100) none))).map
        BreakdownItem.value).sum = cd.costs.total := by
    rw [(hperm.map BreakdownItem.value).sum_eq, hmapped_val, groupAmounts_snd_sum, hsum]
  have hsorted_shape : ∀ it ∈ stableSort (fun (a b : BreakdownItem) => decide (b.value ≤ a.value))
      ((groupAmounts dims.head? cd.costs.breakdown).map
        (fun kv => BreakdownItem.mk kv.1 kv.2 (kv.2 / cd.costs.total * 100) none)),
      0 ≤ it.value ∧ it.percentage = it.value / cd.costs.total * 100 := by
    intro it hit
    obtain ⟨kv, hkv, heq⟩ := List.mem_map.mp ((mem_stableSort _ _ it).mp hit)
    subst heq
    refine ⟨?_, by simp⟩
    simpa using groupAmounts_snd_nonneg dims.head? cd.costs.breakdown hnn kv hkv
  have hbase_pct : ∀ it ∈ breakdownBase dims.head? cd topN threshold,
      it.percentage = it.value / cd.costs.total * 100 := by
    intro it hit
    obtain ⟨kv, -, heq⟩ := breakdownBase_mem_shape _ _ _ _ it hit
    subst heq
    simp
  have hbase_val_le :
      ((breakdownBase dims.head? cd topN threshold).map BreakdownItem.value).sum
        ≤ cd.costs.total := by
    rw [← hsorted_val_sum]
    apply List.Sublist.sum_le_sum ((breakdownBase_sublist _ _ _ _).map BreakdownItem.value)
    intro a ha
    obtain ⟨it, hit, rfl⟩ := List.mem_map.mp ha
    exact (hsorted_shape it hit).1
  have hcalc_pct_sum :
      ((calculateBreakdown cd dims topN threshold).map BreakdownItem.percentage).sum
        = ((breakdownBase dims.head? cd topN threshold).map BreakdownItem.value).sum
            / cd.costs.total * 100 := by
    rw [calculateBreakdown, hpct, pct_sum_formula _ _ hbase_pct]
  constructor
  · rw [hcalc_pct_sum]
    have hdiv : ((breakdownBase dims.head? cd topN threshold).map BreakdownItem.value).sum
        / cd.costs.total ≤ 1 := (div_le_one hpos).mpr hbase_val_le
    nlinarith
  · intro hthr hlen
    have hlen_sorted :
        (stableSort (fun (a b : BreakdownItem) => decide (b.value ≤ a.value))
          ((groupAmounts dims.head? cd.costs.breakdown).map
            (fun kv => BreakdownItem.mk kv.1 kv.2 (kv.2 / cd.costs.total * 100) none))).length
          ≤ topN := by
      rw [hperm.length_eq, List.length_map]
      exact hlen
    have hbase_eq : breakdownBase dims.head? cd topN threshold
        = stableSort (fun (a b : BreakdownItem) => decide (b.value ≤ a.value))
            ((groupAmounts dims.head? cd.costs.breakdown).map
              (fun kv => BreakdownItem.mk kv.1 kv.2 (kv.2 / cd.costs.total * 100) none)) := by
      rcases hthr with rfl | rfl
      · simp only [breakdownBase]
        exact List.take_of_length_le hlen_sorted
      · simp only [breakdownBase]
        rw [List.filter_eq_self.mpr]
        · exact List.take_of_length_le hlen_sorted
        · intro it hit
          have h := hsorted_shape it hit
          have : (0 : ℚ) ≤ it.percentage := by
            rw [h.2]
            apply mul_nonneg
            · exact div_nonneg h.1 (le_of_lt hpos)
            · norm_num
          simpa using this
    have hbase_val_eq :
        ((breakdownBase dims.head? cd topN threshold).map BreakdownItem.value).sum
          = cd.costs.total := by
      rw [hbase_eq, hsorted_val_sum]
    constructor
    · rw [hcalc_pct_sum, hbase_val_eq, div_self (ne_of_gt hpos)]
      norm_num
    · show ((calculateBreakdown cd dims topN threshold).map BreakdownItem.value).sum
          / cd.costs.total * 100 = 100
      rw [calculateBreakdown, hval, hbase_val_eq, div_self (ne_of_gt hpos)]
      norm_num

/-- Witness for C6: the specification's scenario-1 data (A/B/C of
60/30/10, total 100) with `topN = 3` and no threshold — the top-level
percentages sum to exactly 100 and coverage is 100. -/
theorem breakdown_percentage_sums_witness :
    ((calculateBreakdown threeItemData [Dimension.service] 3 none).map
        BreakdownItem.percentage).sum ≤ 100 ∧
    ((calculateBreakdown threeItemData [Dimension.service] 3 none).map
        BreakdownItem.percentage).sum = 100 ∧
    (analyzeBreakdown "aws" threeItemData [Dimension.service] 3 none).coveragePercentage
      = 100 := by
  have h := breakdown_percentage_sums "aws" threeItemData [Dimension.service] 3 none
    (by decide)
    (by norm_num [threeItemData, mkItem])
    (by norm_num [threeItemData])
    |>.imp id (fun h2 => h2 (Or.inl rfl) (by decide))
  exact ⟨h.1, h.2.1, h.2.2⟩
